import Mathlib

/-!
Logging layer of kruise-game: a shallow embedding.

This development embeds the three files of `pkg/logging`
(`sourcecore.go`, `trace.go`, `encoder.go`) and the configuration entry point
`configureEncoder` that the tests of `main_test.go` exercise, and proves the
properties stated for them.

Conventions of the embedding:

* A Go interface value is a value of an abstract carrier type together with a
  record of its methods (`CoreOps`, `ObjectEncoderOps`, `LoggerOps`).
  Theorems quantify over every such record, so they hold for every
  implementation of the interface.
* Effects of a sink's `Write` are modelled by explicit state passing over an
  abstract world `ω`.
* A Go `error` is `Option String`, `none` being `nil`.
* The line that the backend writes for an entry is assembled as zap's JSON
  encoder does; `isJSONObject` recognises the JSON grammar of RFC 8259.
* Go `int` is `Int`; a `byte` is `Fin 256`.
-/

namespace Logging

/-! ## zapcore data consumed by `sourcecore.go` -/

/-- The `zapcore.FieldType` tags that occur in this development. -/
inductive FieldType where
  | UnknownType
  | ObjectMarshalerType
  | BoolType
  | Int64Type
  | StringType
  | ReflectType
  deriving DecidableEq

/-- The struct `sourceInfo` of `sourcecore.go`. -/
structure sourceInfo where
  Function : String
  File : String
  Line : Int
  deriving DecidableEq

/-- The dynamic value stored in `zapcore.Field.Interface`: nothing, a
`sourceInfo`, or some other value (kept as an uninterpreted payload). -/
inductive FieldPayload where
  | null
  | source (s : sourceInfo)
  | other (payload : String)
  deriving DecidableEq

/-- The struct `zapcore.Field`; fields left out of a Go composite literal take
their zero value. -/
structure Field where
  Key : String
  Typ : FieldType
  Integer : Int := 0
  Str : String := ""
  Interface : FieldPayload := FieldPayload.null
  deriving DecidableEq

/-- The struct `zapcore.EntryCaller`. -/
structure EntryCaller where
  Defined : Bool
  PC : Nat
  File : String
  Line : Int
  Function : String
  deriving DecidableEq

/-- The struct `zapcore.Entry`; `Level` is Go's `int8`-backed `zapcore.Level`,
`Time` is kept as nanoseconds. -/
structure Entry where
  Level : Int
  Time : Int
  LoggerName : String
  Message : String
  Caller : EntryCaller
  Stack : String
  deriving DecidableEq

/-- The struct `sourceCore` of `sourcecore.go`: the embedded `zapcore.Core`
(a value of the carrier `κ`) and the skip depth. -/
structure sourceCore (κ : Type) where
  Core : κ
  callerSkip : Int
  deriving DecidableEq

/-- A `zapcore.Core` that can be registered in a checked entry: either a sink of
the wrapped kind or a `sourceCore` around one. -/
inductive AnyCore (κ : Type) where
  | plain (k : κ)
  | decorated (c : sourceCore κ)
  deriving DecidableEq

/-- The pointee of a `*zapcore.CheckedEntry`: the entry and the cores that
agreed to log it. -/
structure CheckedEntryData (κ : Type) where
  Entry : Entry
  cores : List (AnyCore κ)
  deriving DecidableEq

/-- A `*zapcore.CheckedEntry`; `none` is the nil pointer. -/
abbrev CheckedEntry (κ : Type) := Option (CheckedEntryData κ)

/-- The method `(*CheckedEntry).AddCore` of zapcore: a nil receiver is replaced
by a fresh checked entry holding `ent`; the core is appended to `cores`. -/
def CheckedEntry.AddCore {κ : Type} (ce : CheckedEntry κ) (ent : Entry)
    (core : AnyCore κ) : CheckedEntry κ :=
  match ce with
  | none => some { Entry := ent, cores := [core] }
  | some d => some { d with cores := d.cores ++ [core] }

/-- The cores registered in a checked entry (none for the nil pointer). -/
def CheckedEntry.registered {κ : Type} (ce : CheckedEntry κ) : List (AnyCore κ) :=
  match ce with
  | none => []
  | some d => d.cores

/-- The methods of the interface `zapcore.Core` over a carrier `κ` of sink
values and a world `ω` that `Write` and `Sync` act on. -/
structure CoreOps (κ ω : Type) where
  Enabled : κ → Int → Bool
  With : κ → List Field → κ
  Check : κ → Entry → CheckedEntry κ → CheckedEntry κ
  Write : κ → Entry → List Field → ω → Option String × ω
  Sync : κ → ω → Option String × ω

/-- The part of Go's `runtime` package used by `sourceCore.Write`, as seen from
the frame of `Write`: `Caller skip` yields the program counter, file and line
of the frame `skip` levels up, or `none` when `ok` is false; `FuncName pc` is
`runtime.FuncForPC(pc).Name()`. -/
structure Runtime where
  Caller : Int → Option (Nat × String × Int)
  FuncName : Nat → String

/-- The methods of `zapcore.ObjectEncoder` used by `sourceInfo.MarshalLogObject`. -/
structure ObjectEncoderOps (ε : Type) where
  AddString : String → String → ε → ε
  AddInt : String → Int → ε → ε

/-! ## `sourcecore.go` -/

/-- The function `NewSourceCore`. -/
def NewSourceCore {κ : Type} (core : κ) (callerSkip : Int) : sourceCore κ :=
  { Core := core, callerSkip := callerSkip }

/-- The method `Enabled` of `sourceCore`, promoted from the embedded
`zapcore.Core`. -/
def sourceCore.Enabled {κ ω : Type} (ops : CoreOps κ ω) (c : sourceCore κ)
    (lvl : Int) : Bool :=
  ops.Enabled c.Core lvl

/-- The method `sourceCore.With`. -/
def sourceCore.With {κ ω : Type} (ops : CoreOps κ ω) (c : sourceCore κ)
    (fields : List Field) : sourceCore κ :=
  { Core := ops.With c.Core fields, callerSkip := c.callerSkip }

/-- The method `sourceCore.Check`. -/
def sourceCore.Check {κ ω : Type} (ops : CoreOps κ ω) (c : sourceCore κ)
    (entry : Entry) (checked : CheckedEntry κ) : CheckedEntry κ :=
  if sourceCore.Enabled ops c entry.Level then
    checked.AddCore entry (AnyCore.decorated c)
  else
    checked

/-- The method `sourceCore.Write`. -/
def sourceCore.Write {κ ω : Type} (ops : CoreOps κ ω) (rt : Runtime)
    (c : sourceCore κ) (entry : Entry) (fields : List Field) (w : ω) :
    Option String × ω :=
  match rt.Caller c.callerSkip with
  | some (pc, file, line) =>
    let fn := rt.FuncName pc
    let fields := fields ++ [{
      Key := "source",
      Typ := FieldType.ObjectMarshalerType,
      Interface := FieldPayload.source {
        Function := fn,
        File := file,
        Line := line } }]
    ops.Write c.Core entry fields w
  | none => ops.Write c.Core entry fields w

/-- The method `sourceInfo.MarshalLogObject`. -/
def sourceInfo.MarshalLogObject {ε : Type} (eops : ObjectEncoderOps ε)
    (s : sourceInfo) (enc : ε) : Option String × ε :=
  let enc := eops.AddString "function" s.Function enc
  let enc := eops.AddString "file" s.File enc
  let enc := eops.AddInt "line" s.Line enc
  (none, enc)

/-! ## Call stacks and observing sinks -/

/-- One frame of a goroutine's call stack, as `runtime.Caller` reports it. -/
structure Frame where
  pc : Nat
  file : String
  line : Int
  deriving DecidableEq

/-- Go's `runtime.Caller` over an explicit call stack whose head is the frame
of the function calling `runtime.Caller` (skip 0 identifies that function,
skip 1 its caller, and so on; a skip beyond the stack is not ok). A negative
skip addresses frames of the runtime itself, given by `inner`. -/
def stackCaller (inner : Nat → Option (Nat × String × Int)) (stack : List Frame)
    (skip : Int) : Option (Nat × String × Int) :=
  match skip with
  | Int.ofNat n => stack[n]?.map fun f => (f.pc, f.file, f.line)
  | Int.negSucc n => inner n

/-- The runtime seen by a call of `sourceCore.Write` whose stack is `stack`
(head: the frame of `Write` itself), with `names` the symbol table. -/
def stackRuntime (inner : Nat → Option (Nat × String × Int)) (names : Nat → String)
    (stack : List Frame) : Runtime :=
  { Caller := stackCaller inner stack, FuncName := names }

/-- The stack of a call of `sourceCore.Write` made from `callSite` through the
indirection frames `shims` (innermost first), `outer` being the frames above
the call site. -/
def callStack (writeFrame : Frame) (shims : List Frame) (callSite : Frame)
    (outer : List Frame) : List Frame :=
  writeFrame :: (shims ++ callSite :: outer)

/-- The `source` field that names the frame `f` under the symbol table `names`. -/
def sourceFieldOf (names : Nat → String) (f : Frame) : Field :=
  { Key := "source",
    Typ := FieldType.ObjectMarshalerType,
    Interface := FieldPayload.source {
      Function := names f.pc, File := f.file, Line := f.line } }

/-- An observing sink in the manner of zap's `observer`: its value is the list
of fields bound so far, its world the list of writes received; every level is
enabled and `Check` registers the sink whenever the level is enabled. -/
def observerOps : CoreOps (List Field) (List (Entry × List Field)) where
  Enabled := fun _ _ => true
  With := fun k fs => k ++ fs
  Check := fun k ent ce => ce.AddCore ent (AnyCore.plain k)
  Write := fun k ent fs w => (none, w ++ [(ent, k ++ fs)])
  Sync := fun _ w => (none, w)

/-- A sink that enables every level but whose `Check` drops every entry, as
zap's sampler does once its quota is used up (`first = 0`, `thereafter = 0`). -/
def droppingOps : CoreOps Unit (List (Entry × List Field)) where
  Enabled := fun _ _ => true
  With := fun k _ => k
  Check := fun _ _ ce => ce
  Write := fun _ ent fs w => (none, w ++ [(ent, fs)])
  Sync := fun _ w => (none, w)

/-- A value recorded by an object encoder. -/
inductive EncodedValue where
  | str (s : String)
  | int (i : Int)
  deriving DecidableEq

/-- An object encoder that records the key/value pairs in the order added, in
the manner of zap's `MapObjectEncoder`. -/
def recordingEncoder : ObjectEncoderOps (List (String × EncodedValue)) where
  AddString := fun k v enc => enc ++ [(k, EncodedValue.str v)]
  AddInt := fun k v enc => enc ++ [(k, EncodedValue.int v)]

/-! ## OpenTelemetry and logr data consumed by `trace.go` -/

/-- A Go `byte`. -/
abbrev Byte := Fin 256

/-- The type `trace.TraceID`, a `[16]byte`. -/
structure TraceID where
  bytes : List Byte
  size : bytes.length = 16
  deriving DecidableEq

/-- The type `trace.SpanID`, a `[8]byte`. -/
structure SpanID where
  bytes : List Byte
  size : bytes.length = 8
  deriving DecidableEq

/-- The all-zero trace identifier `nilTraceID`. -/
def nilTraceID : TraceID := ⟨List.replicate 16 0, by simp⟩

/-- The all-zero span identifier `nilSpanID`. -/
def nilSpanID : SpanID := ⟨List.replicate 8 0, by simp⟩

/-- The struct `trace.SpanContext`. -/
structure SpanContext where
  traceID : TraceID
  spanID : SpanID
  traceFlags : Byte
  traceState : String
  remote : Bool
  deriving DecidableEq

/-- The zero `SpanContext`, which a context without a span yields. -/
def emptySpanContext : SpanContext :=
  { traceID := nilTraceID, spanID := nilSpanID, traceFlags := 0,
    traceState := "", remote := false }

/-- The method `TraceID.IsValid`: the identifier is not all zero. -/
def TraceID.IsValid (t : TraceID) : Bool :=
  !(t.bytes == nilTraceID.bytes)

/-- The method `SpanID.IsValid`: the identifier is not all zero. -/
def SpanID.IsValid (s : SpanID) : Bool :=
  !(s.bytes == nilSpanID.bytes)

/-- The method `SpanContext.IsValid`: a trace identifier and a span identifier
are both present. -/
def SpanContext.IsValid (sc : SpanContext) : Bool :=
  sc.traceID.IsValid && sc.spanID.IsValid

/-- The method `SpanContext.IsSampled`: the bit `FlagsSampled = 0x01` of the
trace flags is set. -/
def SpanContext.IsSampled (sc : SpanContext) : Bool :=
  sc.traceFlags.val &&& 1 == 1

/-- The constant `hextable` of Go's `encoding/hex`. -/
def hextable : String := "0123456789abcdef"

/-- The function `hex.EncodeToString` of Go's `encoding/hex`: for every byte
`v` in order, `hextable[v>>4]` then `hextable[v&0x0f]`. -/
def hexEncodeToString (src : List Byte) : String :=
  String.mk (src.flatMap fun v =>
    [hextable.data.getD (v.val >>> 4) '0', hextable.data.getD (v.val &&& 15) '0'])

/-- The method `TraceID.String`. -/
def TraceID.String (t : TraceID) : String :=
  hexEncodeToString t.bytes

/-- The part of a `context.Context` that `trace.SpanContextFromContext` reads:
the span context of the span stored in it, if any. -/
structure Context where
  span : Option SpanContext
  deriving DecidableEq

/-- The function `trace.SpanContextFromContext`. -/
def SpanContextFromContext (ctx : Context) : SpanContext :=
  match ctx.span with
  | some sc => sc
  | none => emptySpanContext

/-- An argument of the variadic `keysAndValues ...interface{}` of logr. -/
inductive Value where
  | str (s : String)
  | bool (b : Bool)
  | other (payload : String)
  deriving DecidableEq

/-- The method of `logr.Logger` used by `WithContext`, over a carrier `L` of
logger values: `WithValues log kvs` is the logger derived from `log` by binding
the key/value pairs `kvs` (alternating key, value). -/
structure LoggerOps (L : Type) where
  WithValues : L → List Value → L

/-- A logger that is the list of the key/value pairs bound to it so far. -/
def listLoggerOps : LoggerOps (List (Value × Value)) where
  WithValues := fun log kvs =>
    match kvs with
    | [k1, v1, k2, v2] => log ++ [(k1, v1), (k2, v2)]
    | [k1, v1] => log ++ [(k1, v1)]
    | _ => log

/-! ## `trace.go` -/

/-- The function `WithContext`. -/
def WithContext {L : Type} (lops : LoggerOps L) (ctx : Context) (log : L) : L :=
  let sc := SpanContextFromContext ctx
  if !sc.IsValid then
    log
  else
    lops.WithValues log [
      Value.str "traceid", Value.str sc.traceID.String,
      Value.str "sampled", Value.bool sc.IsSampled]

/-- The hexadecimal digit of a value below sixteen, in lowercase. -/
def lowerHexDigit (n : Nat) : Char :=
  if n < 10 then Char.ofNat (48 + n) else Char.ofNat (97 + (n - 10))

/-- The lowercase hexadecimal encoding of a byte sequence in the words of the
specification: two digits per byte, high digit first, bytes in order. -/
def lowerHexOfBytes (bs : List Byte) : List Char :=
  bs.flatMap fun b => [lowerHexDigit (b.val / 16), lowerHexDigit (b.val % 16)]

/-! ## zap data consumed by `encoder.go` -/

/-- The time encoders of zapcore. -/
inductive TimeEncoder where
  | EpochTimeEncoder
  | EpochMillisTimeEncoder
  | EpochNanosTimeEncoder
  | ISO8601TimeEncoder
  | RFC3339TimeEncoder
  | RFC3339NanoTimeEncoder
  deriving DecidableEq

/-- The level encoders of zapcore. -/
inductive LevelEncoder where
  | LowercaseLevelEncoder
  | LowercaseColorLevelEncoder
  | CapitalLevelEncoder
  | CapitalColorLevelEncoder
  deriving DecidableEq

/-- The duration encoders of zapcore. -/
inductive DurationEncoder where
  | SecondsDurationEncoder
  | NanosDurationEncoder
  | MillisDurationEncoder
  | StringDurationEncoder
  deriving DecidableEq

/-- The caller encoders of zapcore. -/
inductive CallerEncoder where
  | FullCallerEncoder
  | ShortCallerEncoder
  deriving DecidableEq

/-- The struct `zapcore.EncoderConfig`. -/
structure EncoderConfig where
  MessageKey : String
  LevelKey : String
  TimeKey : String
  NameKey : String
  CallerKey : String
  FunctionKey : String
  StacktraceKey : String
  SkipLineEnding : Bool
  LineEnding : String
  EncodeLevel : LevelEncoder
  EncodeTime : TimeEncoder
  EncodeDuration : DurationEncoder
  EncodeCaller : CallerEncoder
  ConsoleSeparator : String
  deriving DecidableEq

/-- A `zapcore.Encoder` as built by `zapcore.NewJSONEncoder` or
`zapcore.NewConsoleEncoder` from a configuration. -/
inductive Encoder where
  | NewJSONEncoder (cfg : EncoderConfig)
  | NewConsoleEncoder (cfg : EncoderConfig)
  deriving DecidableEq

/-- The configuration an encoder was built from. -/
def Encoder.config : Encoder → EncoderConfig
  | Encoder.NewJSONEncoder cfg => cfg
  | Encoder.NewConsoleEncoder cfg => cfg

/-! ## `encoder.go` -/

/-- The function `NewKibanaJSONEncoder`; `production` stands for the value of
zap's `NewProductionEncoderConfig()`, which the function starts from. -/
def NewKibanaJSONEncoder (production : EncoderConfig) : Encoder :=
  let enc := production
  let enc := { enc with TimeKey := "time" }
  let enc := { enc with EncodeTime := TimeEncoder.RFC3339NanoTimeEncoder }
  let enc := { enc with LevelKey := "level" }
  let enc := { enc with EncodeLevel := LevelEncoder.CapitalLevelEncoder }
  let enc := { enc with MessageKey := "msg" }
  let enc := { enc with StacktraceKey := "stacktrace" }
  let enc := { enc with EncodeCaller := CallerEncoder.ShortCallerEncoder }
  Encoder.NewJSONEncoder enc

/-- A production encoder configuration with the values zap documents for
`NewProductionEncoderConfig`. -/
def zapProductionEncoderConfig : EncoderConfig :=
  { TimeKey := "ts",
    LevelKey := "level",
    NameKey := "logger",
    CallerKey := "caller",
    FunctionKey := "",
    MessageKey := "msg",
    StacktraceKey := "stacktrace",
    SkipLineEnding := false,
    LineEnding := "\n",
    EncodeLevel := LevelEncoder.LowercaseLevelEncoder,
    EncodeTime := TimeEncoder.EpochTimeEncoder,
    EncodeDuration := DurationEncoder.SecondsDurationEncoder,
    EncodeCaller := CallerEncoder.ShortCallerEncoder,
    ConsoleSeparator := "" }

/-! ## The encoder selection `configureEncoder` -/

/-- The two effective encodings. -/
inductive Format where
  | console
  | json
  deriving DecidableEq

/-- Modelled from the spec: the encoding that a selector value implies; the
supported values are `console` and `json`, any other value implies none. (The
body of `configureEncoder` is not among the sources; only its calls in
`main_test.go` are.) -/
def impliedEncoding (value : String) : Option Format :=
  if value = "console" then some Format.console
  else if value = "json" then some Format.json
  else none

/-- The encoder construction functions that the selection can install in the
options: the Kibana JSON encoder of `encoder.go` or the console encoder of the
backend. -/
inductive NewEncoderFunc where
  | kibanaJSON
  | backendConsole
  deriving DecidableEq

/-- The construction function for an effective encoding. -/
def NewEncoderFunc.ofFormat : Format → NewEncoderFunc
  | Format.json => NewEncoderFunc.kibanaJSON
  | Format.console => NewEncoderFunc.backendConsole

/-- The effective encoding a construction function stands for. -/
def NewEncoderFunc.format : NewEncoderFunc → Format
  | NewEncoderFunc.kibanaJSON => Format.json
  | NewEncoderFunc.backendConsole => Format.console

/-- The encoder a construction function builds, given the defaults of the
backend. -/
def NewEncoderFunc.build (production consoleDefault : EncoderConfig) :
    NewEncoderFunc → Encoder
  | NewEncoderFunc.kibanaJSON => NewKibanaJSONEncoder production
  | NewEncoderFunc.backendConsole => Encoder.NewConsoleEncoder consoleDefault

/-- The fields of controller-runtime's `zap.Options` that the tests set or the
selection touches; `NewEncoder` is the encoder construction function, `none`
when unset. -/
structure Options where
  Development : Bool
  NewEncoder : Option NewEncoderFunc
  DestWriter : String
  ZapOpts : List String
  deriving DecidableEq

/-- The two output streams of the process: the diagnostic stream (standard
error) and the structured log output. -/
structure Streams where
  diagnostic : List String
  structuredLog : List String
  deriving DecidableEq

/-- The error of the selection. -/
inductive ConfigError where
  | InvalidFormat (value : String)
  deriving DecidableEq

/-- What a call of `configureEncoder` leaves behind: the returned error (`none`
for nil), the options object and the streams after the call. -/
structure Outcome where
  err : Option ConfigError
  opts : Options
  streams : Streams
  deriving DecidableEq

/-- Modelled from the spec: the warning of a format conflict, a human-readable
line containing the word `overrides` (the wording around that word is not
fixed by the specification; the body of `configureEncoder` is not among the
sources). -/
def conflictWarning (logFormat zapEncoder : String) : String :=
  "log format " ++ logFormat ++ " overrides legacy encoder " ++ zapEncoder

/-- A successful selection of the encoding `f`: the construction function of
the options is set, nothing is written. -/
def selectEncoding (f : Format) (opts : Options) (streams : Streams) : Outcome :=
  { err := none,
    opts := { opts with NewEncoder := some (NewEncoderFunc.ofFormat f) },
    streams := streams }

/-- Modelled from the spec: the function `configureEncoder` (`resolve` in the
specification), whose body is not among the sources; only its calls in
`main_test.go` are. An explicitly requested format outside the supported set
fails with `InvalidFormat` and leaves the options as they are; two explicit
inputs that imply different encodings select the one of the format input and
put one warning on the diagnostic stream; one explicit input decides alone;
with no explicit input the default `console` applies. Where the specification
is silent (an explicit legacy value that implies no encoding) the result is
the parameter `unspecified`. -/
def configureEncoder
    (unspecified : String → Bool → String → Bool → Options → Streams → Outcome)
    (logFormat : String) (logFormatSet : Bool) (zapEncoder : String)
    (zapEncoderSet : Bool) (opts : Options) (streams : Streams) : Outcome :=
  if logFormatSet then
    match impliedEncoding logFormat with
    | none =>
      { err := some (ConfigError.InvalidFormat logFormat), opts := opts,
        streams := streams }
    | some f =>
      if zapEncoderSet then
        match impliedEncoding zapEncoder with
        | some g =>
          if f = g then
            selectEncoding f opts streams
          else
            selectEncoding f opts
              { streams with
                diagnostic :=
                  streams.diagnostic ++ [conflictWarning logFormat zapEncoder] }
        | none =>
          unspecified logFormat logFormatSet zapEncoder zapEncoderSet opts streams
      else
        selectEncoding f opts streams
  else if zapEncoderSet then
    match impliedEncoding zapEncoder with
    | some g => selectEncoding g opts streams
    | none =>
      unspecified logFormat logFormatSet zapEncoder zapEncoderSet opts streams
  else
    selectEncoding Format.console opts streams

/-- The effective encoding that the options carry after a selection. -/
def Options.effectiveEncoding (opts : Options) : Option Format :=
  opts.NewEncoder.map NewEncoderFunc.format

/-- An outcome used where the specification is silent: the call fails and
changes nothing. -/
def rejectUnspecified (_logFormat : String) (_logFormatSet : Bool)
    (zapEncoder : String) (_zapEncoderSet : Bool) (opts : Options)
    (streams : Streams) : Outcome :=
  { err := some (ConfigError.InvalidFormat zapEncoder), opts := opts,
    streams := streams }

/-! ## The rendering of entries by the backend

`zapcore.NewJSONEncoder` and the sink that writes encoded entries belong to the
backend. Their assembly of one output line is modelled here after zap's
`jsonEncoder.EncodeEntry`; what zap computes outside that assembly (the texts
of levels, times and callers, console lines, values obtained by reflection) is
the parameter `Rendering`. -/

/-- A JSON scalar that the encoder appends. -/
inductive JsonScalar where
  | str (s : String)
  | int (i : Int)
  | bool (b : Bool)
  deriving DecidableEq

/-- A member value of the top-level object: a scalar, an object of scalars (the
result of an `ObjectMarshaler`), or text produced outside this model. -/
inductive JsonValue where
  | scalar (s : JsonScalar)
  | object (members : List (String × JsonScalar))
  | external (text : String)
  deriving DecidableEq

/-- Whether a value is rendered by this model. -/
def JsonValue.modelled : JsonValue → Bool
  | JsonValue.external _ => false
  | _ => true

/-- The escaping of one character by zap's `safeAddString`: characters from
`0x20` on other than the backslash and the double quote stay as they are; the
backslash and the double quote get a backslash in front; newline, carriage
return and tab become `\n`, `\r`, `\t`; any other control character becomes
`\u00` followed by its two hexadecimal digits. -/
def escapeChar (c : Char) : List Char :=
  if 32 ≤ c.toNat ∧ c ≠ '\\' ∧ c ≠ '"' then [c]
  else if c = '\\' ∨ c = '"' then ['\\', c]
  else if c = '\n' then ['\\', 'n']
  else if c = '\r' then ['\\', 'r']
  else if c = '\t' then ['\\', 't']
  else ['\\', 'u', '0', '0',
    hextable.data.getD (c.toNat >>> 4) '0', hextable.data.getD (c.toNat &&& 15) '0']

/-- The escaped characters of a string. -/
def escapeChars : List Char → List Char
  | [] => []
  | c :: rest => escapeChar c ++ escapeChars rest

/-- A string between double quotes, escaped. -/
def quoted (s : String) : List Char :=
  '"' :: (escapeChars s.data ++ ['"'])

/-- The decimal digit character of a value below ten. -/
def digitChar (n : Nat) : Char := Char.ofNat (48 + n)

/-- The decimal digits of `n` in front of `acc`, most significant first; `fuel`
bounds the number of digits. -/
def digitsLoop : Nat → Nat → List Char → List Char
  | 0, _, acc => acc
  | fuel + 1, n, acc =>
    if n < 10 then digitChar n :: acc
    else digitsLoop fuel (n / 10) (digitChar (n % 10) :: acc)

/-- The decimal text of a natural number. -/
def natText (n : Nat) : List Char := digitsLoop (n + 1) n []

/-- The decimal text of an integer, as `strconv.AppendInt` writes it. -/
def intText (i : Int) : List Char :=
  match i with
  | Int.ofNat n => natText n
  | Int.negSucc n => '-' :: natText (n + 1)

/-- The JSON text of a scalar. -/
def JsonScalar.render : JsonScalar → List Char
  | JsonScalar.str s => quoted s
  | JsonScalar.int i => intText i
  | JsonScalar.bool true => ['t', 'r', 'u', 'e']
  | JsonScalar.bool false => ['f', 'a', 'l', 's', 'e']

/-- The members of an object, each `key:value`, separated by commas. -/
def renderMembers {α : Type} (renderValue : α → List Char) :
    List (String × α) → List Char
  | [] => []
  | [m] => quoted m.1 ++ ':' :: renderValue m.2
  | m :: next :: rest =>
    quoted m.1 ++ ':' :: (renderValue m.2 ++ ',' :: renderMembers renderValue (next :: rest))

/-- An object: its members between braces. -/
def renderObject {α : Type} (renderValue : α → List Char)
    (members : List (String × α)) : List Char :=
  '{' :: (renderMembers renderValue members ++ ['}'])

/-- The JSON text of a member value. -/
def JsonValue.render : JsonValue → List Char
  | JsonValue.scalar s => s.render
  | JsonValue.object members => renderObject JsonScalar.render members
  | JsonValue.external text => text.data

/-- An object encoder that collects the members added to it, as the JSON
encoder does for the object of an `ObjectMarshaler`. -/
def memberEncoder : ObjectEncoderOps (List (String × JsonScalar)) where
  AddString := fun k v enc => enc ++ [(k, JsonScalar.str v)]
  AddInt := fun k v enc => enc ++ [(k, JsonScalar.int v)]

/-- What zap computes outside the assembly of a line: the text a level encoder,
a time encoder and a caller encoder append, the JSON text of a field value
that is neither a string, a boolean, an integer nor a `sourceInfo`, and the
line of the console encoder. -/
structure Rendering where
  levelText : LevelEncoder → Int → String
  timeText : TimeEncoder → Int → String
  callerText : CallerEncoder → EntryCaller → String
  fieldText : Field → String
  consoleLine : EncoderConfig → Entry → List Field → String

/-- Whether a field is of a kind whose value this model renders: a string, a
boolean, an integer, or an object marshaler holding a `sourceInfo`. -/
def Field.modelled (f : Field) : Bool :=
  match f.Typ, f.Interface with
  | FieldType.StringType, _ => true
  | FieldType.BoolType, _ => true
  | FieldType.Int64Type, _ => true
  | FieldType.ObjectMarshalerType, FieldPayload.source _ => true
  | _, _ => false

/-- The member value that `Field.AddTo` adds for a field. -/
def Field.toValue (r : Rendering) (f : Field) : JsonValue :=
  match f.Typ, f.Interface with
  | FieldType.StringType, _ => JsonValue.scalar (JsonScalar.str f.Str)
  | FieldType.BoolType, _ => JsonValue.scalar (JsonScalar.bool (f.Integer == 1))
  | FieldType.Int64Type, _ => JsonValue.scalar (JsonScalar.int f.Integer)
  | FieldType.ObjectMarshalerType, FieldPayload.source s =>
    JsonValue.object (sourceInfo.MarshalLogObject memberEncoder s []).2
  | _, _ => JsonValue.external (r.fieldText f)

/-- Whether a time encoder appends a string (a layout) rather than a number. -/
def TimeEncoder.isLayout : TimeEncoder → Bool
  | TimeEncoder.ISO8601TimeEncoder => true
  | TimeEncoder.RFC3339TimeEncoder => true
  | TimeEncoder.RFC3339NanoTimeEncoder => true
  | _ => false

/-- The member value of the time: a quoted text for a layout, the number text
of the encoder otherwise. (zap writes the text of a layout between quotes as it
is; the text of a layout holds no character that escaping changes.) -/
def timeValue (r : Rendering) (enc : TimeEncoder) (t : Int) : JsonValue :=
  if enc.isLayout then JsonValue.scalar (JsonScalar.str (r.timeText enc t))
  else JsonValue.external (r.timeText enc t)

/-- The members of the object that zap's `jsonEncoder.EncodeEntry` writes, in
its order: level, time, logger name, caller and function, message, the fields,
the stack trace; a member whose key is empty or whose value is absent (the
zero time `Time = 0`, an empty logger name, an undefined caller, an empty
stack) is left out. -/
def jsonMembers (r : Rendering) (cfg : EncoderConfig) (ent : Entry)
    (fields : List Field) : List (String × JsonValue) :=
  (if cfg.LevelKey ≠ "" then
      [(cfg.LevelKey, JsonValue.scalar (JsonScalar.str (r.levelText cfg.EncodeLevel ent.Level)))]
    else [])
  ++ (if cfg.TimeKey ≠ "" ∧ ent.Time ≠ 0 then
      [(cfg.TimeKey, timeValue r cfg.EncodeTime ent.Time)]
    else [])
  ++ (if ent.LoggerName ≠ "" ∧ cfg.NameKey ≠ "" then
      [(cfg.NameKey, JsonValue.scalar (JsonScalar.str ent.LoggerName))]
    else [])
  ++ (if ent.Caller.Defined ∧ cfg.CallerKey ≠ "" then
      [(cfg.CallerKey,
        JsonValue.scalar (JsonScalar.str (r.callerText cfg.EncodeCaller ent.Caller)))]
    else [])
  ++ (if ent.Caller.Defined ∧ cfg.FunctionKey ≠ "" then
      [(cfg.FunctionKey, JsonValue.scalar (JsonScalar.str ent.Caller.Function))]
    else [])
  ++ (if cfg.MessageKey ≠ "" then
      [(cfg.MessageKey, JsonValue.scalar (JsonScalar.str ent.Message))]
    else [])
  ++ fields.map (fun f => (f.Key, f.toValue r))
  ++ (if ent.Stack ≠ "" ∧ cfg.StacktraceKey ≠ "" then
      [(cfg.StacktraceKey, JsonValue.scalar (JsonScalar.str ent.Stack))]
    else [])

/-- The object text of an entry under the JSON encoder, without line ending. -/
def jsonObjectText (r : Rendering) (cfg : EncoderConfig) (ent : Entry)
    (fields : List Field) : String :=
  String.mk (renderObject JsonValue.render (jsonMembers r cfg ent fields))

/-- The line ending the JSON encoder appends: none when skipped, the default
newline when the configured one is empty. -/
def lineEndingOf (cfg : EncoderConfig) : String :=
  if cfg.SkipLineEnding then ""
  else if cfg.LineEnding = "" then "\n"
  else cfg.LineEnding

/-- The method `EncodeEntry` of an encoder: the line written for an entry and
its fields. -/
def Encoder.EncodeEntry (r : Rendering) (enc : Encoder) (ent : Entry)
    (fields : List Field) : String :=
  match enc with
  | Encoder.NewJSONEncoder cfg => jsonObjectText r cfg ent fields ++ lineEndingOf cfg
  | Encoder.NewConsoleEncoder cfg => r.consoleLine cfg ent fields

/-- The sink of the backend (zap's `ioCore`): its value is the list of fields
bound so far; `Write` encodes the entry with the bound fields followed by the
fields of the call and appends the line to the structured log output. -/
def ioCoreOps (r : Rendering) (enab : Int → Bool) (enc : Encoder) :
    CoreOps (List Field) Streams where
  Enabled := fun _ lvl => enab lvl
  With := fun k fs => k ++ fs
  Check := fun k ent ce =>
    if enab ent.Level then ce.AddCore ent (AnyCore.plain k) else ce
  Write := fun k ent fs w =>
    (none,
      { w with structuredLog := w.structuredLog ++ [enc.EncodeEntry r ent (k ++ fs)] })
  Sync := fun _ w => (none, w)

/-- The encoder the backend uses for the options: the one the construction
function builds when it is set, else the default of the mode. -/
def Options.encoder (production consoleDefault : EncoderConfig) (opts : Options) :
    Encoder :=
  match opts.NewEncoder with
  | some f => f.build production consoleDefault
  | none =>
    if opts.Development then Encoder.NewConsoleEncoder consoleDefault
    else Encoder.NewJSONEncoder production

/-! ## Recognising JSON text -/

/-- What encloses the value being read. -/
inductive JsonFrame where
  | object
  | array
  deriving DecidableEq

/-- The position of the reader within the JSON grammar of RFC 8259. -/
inductive JsonMode where
  | value
  | arrayStart
  | objectStart
  | key
  | colon
  | afterValue
  | string (isKey : Bool)
  | escape (isKey : Bool)
  | hex (isKey : Bool) (left : Nat)
  | literal (rest : List Char)
  | minus
  | zero
  | digits
  | point
  | fraction
  | exponent
  | exponentSign
  | exponentDigits
  deriving DecidableEq

/-- The state of the reader: its position and the enclosing brackets,
innermost first. -/
abbrev JsonState := JsonMode × List JsonFrame

/-- JSON whitespace. -/
def isJsonSpace (c : Char) : Bool :=
  c = ' ' ∨ c = '\t' ∨ c = '\n' ∨ c = '\r'

/-- A decimal digit. -/
def isJsonDigit (c : Char) : Bool :=
  48 ≤ c.toNat ∧ c.toNat ≤ 57

/-- A hexadecimal digit of either case. -/
def isJsonHex (c : Char) : Bool :=
  isJsonDigit c ∨ (97 ≤ c.toNat ∧ c.toNat ≤ 102) ∨ (65 ≤ c.toNat ∧ c.toNat ≤ 70)

/-- The reader after a complete value: whitespace, a comma or the bracket that
closes the enclosing object or array. -/
def afterValueStep (stack : List JsonFrame) (c : Char) : Option JsonState :=
  if isJsonSpace c then some (JsonMode.afterValue, stack)
  else
    match stack with
    | [] => none
    | JsonFrame.object :: outer =>
      if c = ',' then some (JsonMode.key, stack)
      else if c = '}' then some (JsonMode.afterValue, outer)
      else none
    | JsonFrame.array :: outer =>
      if c = ',' then some (JsonMode.value, stack)
      else if c = ']' then some (JsonMode.afterValue, outer)
      else none

/-- The reader where a value starts. -/
def valueStep (stack : List JsonFrame) (c : Char) : Option JsonState :=
  if isJsonSpace c then some (JsonMode.value, stack)
  else if c = '"' then some (JsonMode.string false, stack)
  else if c = '{' then some (JsonMode.objectStart, JsonFrame.object :: stack)
  else if c = '[' then some (JsonMode.arrayStart, JsonFrame.array :: stack)
  else if c = '-' then some (JsonMode.minus, stack)
  else if c = '0' then some (JsonMode.zero, stack)
  else if isJsonDigit c then some (JsonMode.digits, stack)
  else if c = 't' then some (JsonMode.literal ['r', 'u', 'e'], stack)
  else if c = 'f' then some (JsonMode.literal ['a', 'l', 's', 'e'], stack)
  else if c = 'n' then some (JsonMode.literal ['u', 'l', 'l'], stack)
  else none

/-- One character read in a state; `none` when the text is not JSON. -/
def jsonStep (s : JsonState) (c : Char) : Option JsonState :=
  match s with
  | (JsonMode.value, stack) => valueStep stack c
  | (JsonMode.arrayStart, stack) =>
    if isJsonSpace c then some (JsonMode.arrayStart, stack)
    else if c = ']' then
      match stack with
      | JsonFrame.array :: outer => some (JsonMode.afterValue, outer)
      | _ => none
    else valueStep stack c
  | (JsonMode.objectStart, stack) =>
    if isJsonSpace c then some (JsonMode.objectStart, stack)
    else if c = '}' then
      match stack with
      | JsonFrame.object :: outer => some (JsonMode.afterValue, outer)
      | _ => none
    else if c = '"' then some (JsonMode.string true, stack)
    else none
  | (JsonMode.key, stack) =>
    if isJsonSpace c then some (JsonMode.key, stack)
    else if c = '"' then some (JsonMode.string true, stack)
    else none
  | (JsonMode.colon, stack) =>
    if isJsonSpace c then some (JsonMode.colon, stack)
    else if c = ':' then some (JsonMode.value, stack)
    else none
  | (JsonMode.afterValue, stack) => afterValueStep stack c
  | (JsonMode.string isKey, stack) =>
    if c = '"' then some (if isKey then JsonMode.colon else JsonMode.afterValue, stack)
    else if c = '\\' then some (JsonMode.escape isKey, stack)
    else if c.toNat < 32 then none
    else some (JsonMode.string isKey, stack)
  | (JsonMode.escape isKey, stack) =>
    if c = '"' ∨ c = '\\' ∨ c = '/' ∨ c = 'b' ∨ c = 'f' ∨ c = 'n' ∨ c = 'r' ∨ c = 't' then
      some (JsonMode.string isKey, stack)
    else if c = 'u' then some (JsonMode.hex isKey 4, stack)
    else none
  | (JsonMode.hex isKey left, stack) =>
    if isJsonHex c then
      some (if left ≤ 1 then JsonMode.string isKey else JsonMode.hex isKey (left - 1), stack)
    else none
  | (JsonMode.literal [], stack) => afterValueStep stack c
  | (JsonMode.literal (x :: rest), stack) =>
    if c = x then some (JsonMode.literal rest, stack) else none
  | (JsonMode.minus, stack) =>
    if c = '0' then some (JsonMode.zero, stack)
    else if isJsonDigit c then some (JsonMode.digits, stack)
    else none
  | (JsonMode.zero, stack) =>
    if c = '.' then some (JsonMode.point, stack)
    else if c = 'e' ∨ c = 'E' then some (JsonMode.exponent, stack)
    else afterValueStep stack c
  | (JsonMode.digits, stack) =>
    if isJsonDigit c then some (JsonMode.digits, stack)
    else if c = '.' then some (JsonMode.point, stack)
    else if c = 'e' ∨ c = 'E' then some (JsonMode.exponent, stack)
    else afterValueStep stack c
  | (JsonMode.point, stack) =>
    if isJsonDigit c then some (JsonMode.fraction, stack) else none
  | (JsonMode.fraction, stack) =>
    if isJsonDigit c then some (JsonMode.fraction, stack)
    else if c = 'e' ∨ c = 'E' then some (JsonMode.exponent, stack)
    else afterValueStep stack c
  | (JsonMode.exponent, stack) =>
    if c = '+' ∨ c = '-' then some (JsonMode.exponentSign, stack)
    else if isJsonDigit c then some (JsonMode.exponentDigits, stack)
    else none
  | (JsonMode.exponentSign, stack) =>
    if isJsonDigit c then some (JsonMode.exponentDigits, stack) else none
  | (JsonMode.exponentDigits, stack) =>
    if isJsonDigit c then some (JsonMode.exponentDigits, stack)
    else afterValueStep stack c

/-- The state after reading a text from a state. -/
def jsonRun : JsonState → List Char → Option JsonState
  | s, [] => some s
  | s, c :: rest =>
    match jsonStep s c with
    | some next => jsonRun next rest
    | none => none

/-- Whether a state at the end of the text stands after one complete value
with every bracket closed. -/
def jsonComplete : Option JsonState → Bool
  | some (JsonMode.afterValue, []) => true
  | some (JsonMode.literal [], []) => true
  | some (JsonMode.zero, []) => true
  | some (JsonMode.digits, []) => true
  | some (JsonMode.fraction, []) => true
  | some (JsonMode.exponentDigits, []) => true
  | _ => false

/-- Whether a text is one JSON value. -/
def isJSONText (text : List Char) : Bool :=
  jsonComplete (jsonRun (JsonMode.value, []) text)

/-- Whether a text is one JSON object, possibly surrounded by whitespace: a
text that `json.Unmarshal` decodes into a map. -/
def isJSONObject (text : String) : Bool :=
  match text.data.dropWhile isJsonSpace with
  | '{' :: _ => isJSONText text.data
  | _ => false

/-! ## Decorators behind pointers

`NewSourceCore` and `With` return `&sourceCore{...}`, a pointer to a freshly
allocated struct. The store below makes the allocation explicit, so that what a
call leaves of the instances that existed before it can be stated. -/

/-- The allocated `sourceCore` structs; a pointer is an index into `cells`. -/
structure Store (κ : Type) where
  cells : List (sourceCore κ)

/-- The struct a pointer refers to, if it is allocated. -/
def Store.read {κ : Type} (h : Store κ) (p : Nat) : Option (sourceCore κ) :=
  h.cells[p]?

/-- Allocation of a new struct: the fresh pointer and the extended store. -/
def Store.alloc {κ : Type} (h : Store κ) (v : sourceCore κ) : Nat × Store κ :=
  (h.cells.length, { cells := h.cells ++ [v] })

/-- The function `NewSourceCore` with its allocation. -/
def NewSourceCoreRef {κ : Type} (h : Store κ) (core : κ) (callerSkip : Int) :
    Nat × Store κ :=
  h.alloc (NewSourceCore core callerSkip)

/-- The method `sourceCore.With` with its allocation, called on the pointer
`c`; `none` is the nil dereference of a pointer that is not allocated. -/
def sourceCore.WithRef {κ ω : Type} (ops : CoreOps κ ω) (h : Store κ) (c : Nat)
    (fields : List Field) : Option (Nat × Store κ) :=
  match h.read c with
  | some v => some (h.alloc (sourceCore.With ops v fields))
  | none => none

/-- A sequence of `With` calls, each on the decorator the previous one
returned. -/
def deriveRef {κ ω : Type} (ops : CoreOps κ ω) :
    Store κ → Nat → List (List Field) → Option (Nat × Store κ)
  | h, c, [] => some (c, h)
  | h, c, fs :: rest =>
    match sourceCore.WithRef ops h c fs with
    | some (c1, h1) => deriveRef ops h1 c1 rest
    | none => none

/-- Whether `after` holds exactly one registered core more than `before`. -/
def CheckedEntry.admitted {κ : Type} (before after : CheckedEntry κ) : Bool :=
  after.registered.length == before.registered.length + 1

/-! ## Sample data -/

/-- A sample log entry at level `Info`. -/
def sampleEntry : Entry :=
  { Level := 0, Time := 1700000000000000000, LoggerName := "", Message := "hello",
    Caller := { Defined := false, PC := 0, File := "", Line := 0, Function := "" },
    Stack := "" }

/-- A sample user field. -/
def sampleField : Field :=
  { Key := "gameserver", Typ := FieldType.StringType, Str := "gs-0" }

/-- The frame of `sourceCore.Write` in the sample stacks. -/
def frameWrite : Frame := { pc := 100, file := "pkg/logging/sourcecore.go", line := 35 }

/-- A frame of the backend between a call site and `Write`. -/
def frameBackend : Frame := { pc := 200, file := "zapcore/entry.go", line := 253 }

/-- A frame of a redirected facade between a call site and `Write`. -/
def frameFacade : Frame := { pc := 300, file := "klog/v2/klog.go", line := 1436 }

/-- The frame of the original call site. -/
def frameSite : Frame := { pc := 400, file := "main_test.go", line := 176 }

/-- The frame of the caller of the call site. -/
def frameOuter : Frame := { pc := 500, file := "testing/testing.go", line := 1690 }

/-- The symbol table of the sample stacks. -/
def sampleNames (pc : Nat) : String :=
  if pc = 100 then "logging.(*sourceCore).Write"
  else if pc = 200 then "zapcore.(*CheckedEntry).Write"
  else if pc = 300 then "klog.InfoS"
  else if pc = 400 then "main.TestKlogRedirectsToZap"
  else if pc = 500 then "testing.tRunner"
  else ""

/-- A runtime in which no frame of the runtime itself is reported. -/
def noInner (_ : Nat) : Option (Nat × String × Int) := none

/-- The trace identifier `01 02 ... 0f 10`. -/
def sampleTraceID : TraceID :=
  ⟨[0x01, 0x02, 0x03, 0x04, 0x05, 0x06, 0x07, 0x08,
    0x09, 0x0a, 0x0b, 0x0c, 0x0d, 0x0e, 0x0f, 0x10], rfl⟩

/-- The span identifier `01 02 ... 08`. -/
def sampleSpanID : SpanID :=
  ⟨[0x01, 0x02, 0x03, 0x04, 0x05, 0x06, 0x07, 0x08], rfl⟩

/-- The sampled span context of `TestTraceFieldInjection`. -/
def sampleSpanContext : SpanContext :=
  { traceID := sampleTraceID, spanID := sampleSpanID, traceFlags := 1,
    traceState := "", remote := false }

/-- The options object of the tests. -/
def sampleOptions : Options :=
  { Development := true, NewEncoder := none, DestWriter := "buf",
    ZapOpts := ["AddCaller", "WrapCore"] }

/-- Streams on which nothing has been written yet. -/
def emptyStreams : Streams := { diagnostic := [], structuredLog := [] }

/-- A sample of the texts of the backend: capital level names, one fixed
timestamp, the file of the caller. -/
def sampleRendering : Rendering :=
  { levelText := fun _ lvl =>
      if lvl = -1 then "DEBUG" else if lvl = 0 then "INFO"
      else if lvl = 1 then "WARN" else "ERROR",
    timeText := fun _ _ => "2023-11-14T22:13:20.000000001Z",
    callerText := fun _ caller => caller.File,
    fieldText := fun _ => "null",
    consoleLine := fun _ ent _ => ent.Message }

/-! ## Theorems: `sourcecore.go` -/

/-- C1: when the frame resolver succeeds at the skip depth with function `f`,
file `p` and line `n`, `sourceCore.Write` is one call of the wrapped sink's
write with the same entry and the field list followed by exactly one field,
of key `source` and object type, whose value marshals to `function = f`,
`file = p`, `line = n` in that order; the result is the wrapped sink's. An
observing sink records exactly one write. -/
theorem sourceCore_Write_appends_source {κ ω ε : Type} (ops : CoreOps κ ω)
    (eops : ObjectEncoderOps ε) (rt : Runtime) (c : sourceCore κ) (e : Entry)
    (fs : List Field) (world : ω) (enc : ε) (pc : Nat) (f p : String) (n : Int)
    (hres : rt.Caller c.callerSkip = some (pc, p, n))
    (hfn : rt.FuncName pc = f) :
    sourceCore.Write ops rt c e fs world
        = ops.Write c.Core e
            (fs ++ [{ Key := "source", Typ := FieldType.ObjectMarshalerType,
                      Interface := FieldPayload.source
                        { Function := f, File := p, Line := n } }]) world
      ∧ sourceInfo.MarshalLogObject eops { Function := f, File := p, Line := n } enc
        = (none, eops.AddInt "line" n
            (eops.AddString "file" p (eops.AddString "function" f enc)))
      ∧ sourceInfo.MarshalLogObject recordingEncoder
          { Function := f, File := p, Line := n } []
        = (none, [("function", EncodedValue.str f), ("file", EncodedValue.str p),
                  ("line", EncodedValue.int n)])
      ∧ ∀ (bound : List Field) (seen : List (Entry × List Field)),
          (sourceCore.Write observerOps rt { Core := bound, callerSkip := c.callerSkip }
              e fs seen).2
            = seen ++ [(e, bound ++ (fs ++
                [{ Key := "source", Typ := FieldType.ObjectMarshalerType,
                   Interface := FieldPayload.source
                     { Function := f, File := p, Line := n } }]))] := by
  subst hfn
  refine ⟨?_, rfl, rfl, ?_⟩
  · simp only [sourceCore.Write, hres]
  · intro bound seen
    simp only [sourceCore.Write, hres, observerOps]

/-- Witness of C1: a write through a decorator of skip depth 2 on a stack with
one backend frame between the call site and `Write`. -/
theorem sourceCore_Write_appends_source_witness :
    (sourceCore.Write observerOps
        (stackRuntime noInner sampleNames [frameWrite, frameBackend, frameSite, frameOuter])
        (NewSourceCore [] 2) sampleEntry [sampleField] []).2
      = [(sampleEntry, [sampleField,
          { Key := "source", Typ := FieldType.ObjectMarshalerType,
            Interface := FieldPayload.source
              { Function := "main.TestKlogRedirectsToZap", File := "main_test.go",
                Line := 176 } }])] :=
  (sourceCore_Write_appends_source observerOps recordingEncoder
    (stackRuntime noInner sampleNames [frameWrite, frameBackend, frameSite, frameOuter])
    (NewSourceCore [] 2) sampleEntry [sampleField] [] [] 400
    "main.TestKlogRedirectsToZap" "main_test.go" 176 rfl rfl).2.2.2 [] []

/-- C3: when the frame resolver fails at the skip depth, `sourceCore.Write` is
one call of the wrapped sink's write with the same entry and the unchanged
field list, and returns what that call returns; in particular its error is the
wrapped sink's error. An observing sink records the fields without a `source`
field. -/
theorem sourceCore_Write_resolver_fails {κ ω : Type} (ops : CoreOps κ ω)
    (rt : Runtime) (c : sourceCore κ) (e : Entry) (fs : List Field) (world : ω)
    (hres : rt.Caller c.callerSkip = none) :
    sourceCore.Write ops rt c e fs world = ops.Write c.Core e fs world
      ∧ (sourceCore.Write ops rt c e fs world).1 = (ops.Write c.Core e fs world).1
      ∧ ∀ (bound : List Field) (seen : List (Entry × List Field)),
          (sourceCore.Write observerOps rt { Core := bound, callerSkip := c.callerSkip }
              e fs seen).2
            = seen ++ [(e, bound ++ fs)] := by
  have h : sourceCore.Write ops rt c e fs world = ops.Write c.Core e fs world := by
    simp only [sourceCore.Write, hres]
  refine ⟨h, by rw [h], ?_⟩
  intro bound seen
  simp only [sourceCore.Write, hres, observerOps]

/-- Witness of C3: a decorator of skip depth 7 on a stack of four frames. -/
theorem sourceCore_Write_resolver_fails_witness :
    (sourceCore.Write observerOps
        (stackRuntime noInner sampleNames [frameWrite, frameBackend, frameSite, frameOuter])
        (NewSourceCore [] 7) sampleEntry [sampleField] []).2
      = [(sampleEntry, [sampleField])] :=
  (sourceCore_Write_resolver_fails observerOps
    (stackRuntime noInner sampleNames [frameWrite, frameBackend, frameSite, frameOuter])
    (NewSourceCore [] 7) sampleEntry [sampleField] [] rfl).2.2 [] []

/-- The frame that `stackCaller` reports at a non-negative skip is the frame at
that index of the stack. -/
theorem stackCaller_natCast (inner : Nat → Option (Nat × String × Int))
    (stack : List Frame) (n : Nat) :
    stackCaller inner stack (n : Int)
      = stack[n]?.map fun f => (f.pc, f.file, f.line) := rfl

/-- The call site of a call stack lies one level above the indirection frames. -/
theorem callStack_get_site (writeFrame : Frame) (shims : List Frame)
    (callSite : Frame) (outer : List Frame) :
    (callStack writeFrame shims callSite outer)[shims.length + 1]?
      = some callSite := by
  have h : (shims ++ callSite :: outer)[shims.length]? = some callSite := by
    induction shims with
    | nil => simp
    | cons a rest ih => simpa using ih
  simpa [callStack] using h

/-- C2 (as stated, refuted): one decorator of skip depth 2 over an observing
sink. Called through two indirection frames it reports the frame of the
facade, called with no indirection frame it reports the caller of the call
site; neither is the call site. -/
theorem sourceCore_Write_fixed_skip_misses_call_site :
    (sourceCore.Write observerOps
        (stackRuntime noInner sampleNames
          (callStack frameWrite [frameBackend, frameFacade] frameSite [frameOuter]))
        (NewSourceCore [] 2) sampleEntry [] []).2
      = [(sampleEntry, [sourceFieldOf sampleNames frameFacade])]
    ∧ (sourceCore.Write observerOps
        (stackRuntime noInner sampleNames
          (callStack frameWrite [] frameSite [frameOuter]))
        (NewSourceCore [] 2) sampleEntry [] []).2
      = [(sampleEntry, [sourceFieldOf sampleNames frameOuter])]
    ∧ sourceFieldOf sampleNames frameFacade ≠ sourceFieldOf sampleNames frameSite
    ∧ sourceFieldOf sampleNames frameOuter ≠ sourceFieldOf sampleNames frameSite := by
  refine ⟨rfl, rfl, by decide, by decide⟩

/-- C2 (amended): a decorator whose skip depth is one more than the number of
indirection frames between the original call site and `sourceCore.Write`
appends the `source` field that names the function, file and line of the
original call site. -/
theorem sourceCore_Write_names_call_site {κ ω : Type} (ops : CoreOps κ ω)
    (inner : Nat → Option (Nat × String × Int)) (names : Nat → String)
    (writeFrame : Frame) (shims : List Frame) (callSite : Frame)
    (outer : List Frame) (w : κ) (e : Entry) (fs : List Field) (world : ω) :
    sourceCore.Write ops
        (stackRuntime inner names (callStack writeFrame shims callSite outer))
        (NewSourceCore w ((shims.length + 1 : Nat) : Int)) e fs world
      = ops.Write w e (fs ++ [sourceFieldOf names callSite]) world := by
  simp only [sourceCore.Write, stackRuntime, NewSourceCore, stackCaller_natCast,
    callStack_get_site, Option.map_some', sourceFieldOf]

/-- C6 (as stated, refuted): over a sink that enables every level and whose own
check drops every entry, the decorator's check registers a core while the
wrapped sink's check registers none. -/
theorem sourceCore_Check_admits_what_wrapped_check_drops :
    CheckedEntry.admitted none
        (sourceCore.Check droppingOps (NewSourceCore () 2) sampleEntry none) = true
    ∧ CheckedEntry.admitted none
        (droppingOps.Check () sampleEntry none) = false := by
  refine ⟨by decide, by decide⟩

/-- C6 (amended): the decorator's enabled is the wrapped sink's enabled, and
the decorator's check registers one core, the decorator itself, exactly when
the wrapped sink's enabled holds at the level of the entry; otherwise it
returns the accumulator as it is. The wrapped sink's check is not consulted. -/
theorem sourceCore_Check_follows_wrapped_Enabled {κ ω : Type} (ops : CoreOps κ ω)
    (c : sourceCore κ) (lvl : Int) (e : Entry) (checked : CheckedEntry κ) :
    sourceCore.Enabled ops c lvl = ops.Enabled c.Core lvl
      ∧ CheckedEntry.admitted checked (sourceCore.Check ops c e checked)
          = ops.Enabled c.Core e.Level
      ∧ sourceCore.Check ops c e checked
          = (if ops.Enabled c.Core e.Level
              then checked.AddCore e (AnyCore.decorated c) else checked)
      ∧ (checked.AddCore e (AnyCore.decorated c)).registered
          = checked.registered ++ [AnyCore.decorated c] := by
  have hreg : (checked.AddCore e (AnyCore.decorated c)).registered
      = checked.registered ++ [AnyCore.decorated c] := by
    cases checked <;> rfl
  refine ⟨rfl, ?_, rfl, hreg⟩
  unfold sourceCore.Check sourceCore.Enabled CheckedEntry.admitted
  cases hen : ops.Enabled c.Core e.Level
  · simp
  · simp [hreg]

/-- Allocation leaves every struct that was allocated before as it was. -/
theorem Store.read_alloc_of_read {κ : Type} (h : Store κ) (x v : sourceCore κ)
    (p : Nat) (hp : h.read p = some v) : (h.alloc x).2.read p = some v := by
  unfold Store.read at hp
  have hlt : p < h.cells.length := by
    rcases Nat.lt_or_ge p h.cells.length with hlt | hge
    · exact hlt
    · rw [List.getElem?_eq_none hge] at hp
      cases hp
  simp only [Store.read, Store.alloc]
  rw [List.getElem?_append_left hlt]
  exact hp

/-- The pointer returned by an allocation refers to the new struct. -/
theorem Store.read_alloc_new {κ : Type} (h : Store κ) (x : sourceCore κ) :
    (h.alloc x).2.read (h.alloc x).1 = some x := by
  simp [Store.read, Store.alloc]

/-- The pointer returned by an allocation differs from every allocated one. -/
theorem Store.alloc_fresh {κ : Type} (h : Store κ) (x v : sourceCore κ) (p : Nat)
    (hp : h.read p = some v) : (h.alloc x).1 ≠ p := by
  intro heq
  unfold Store.read at hp
  have hge : h.cells.length ≤ p := by
    simp only [Store.alloc] at heq
    omega
  rw [List.getElem?_eq_none hge] at hp
  cases hp

/-- A sequence of `With` calls from an allocated decorator of skip depth `d`
succeeds, ends in a decorator of skip depth `d` and leaves every struct that
was allocated before as it was. -/
theorem deriveRef_keeps_skip {κ ω : Type} (ops : CoreOps κ ω) (d : Int) :
    ∀ (fss : List (List Field)) (h : Store κ) (c : Nat),
      (∃ v, h.read c = some v ∧ v.callerSkip = d) →
      ∃ c2 h2, deriveRef ops h c fss = some (c2, h2)
        ∧ (∃ v2, h2.read c2 = some v2 ∧ v2.callerSkip = d)
        ∧ ∀ p v, h.read p = some v → h2.read p = some v := by
  intro fss
  induction fss with
  | nil =>
    intro h c hv
    exact ⟨c, h, rfl, hv, fun _ _ hp => hp⟩
  | cons fs rest ih =>
    intro h c hv
    obtain ⟨v, hread, hskip⟩ := hv
    have hstep : sourceCore.WithRef ops h c fs
        = some (h.alloc (sourceCore.With ops v fs)) := by
      simp only [sourceCore.WithRef, hread]
    obtain ⟨c2, h2, hrun, hend, hkeep⟩ :=
      ih (h.alloc (sourceCore.With ops v fs)).2 (h.alloc (sourceCore.With ops v fs)).1
        ⟨sourceCore.With ops v fs, Store.read_alloc_new h _, hskip⟩
    refine ⟨c2, h2, ?_, hend, ?_⟩
    · simp only [deriveRef, hstep]
      exact hrun
    · intro p u hp
      exact hkeep p u (Store.read_alloc_of_read h _ u p hp)

/-- The skip depth is the same after any sequence of `With` calls on values. -/
theorem foldl_With_callerSkip {κ ω : Type} (ops : CoreOps κ ω) :
    ∀ (fss : List (List Field)) (c : sourceCore κ),
      (fss.foldl (sourceCore.With ops) c).callerSkip = c.callerSkip := by
  intro fss
  induction fss with
  | nil => intro c; rfl
  | cons fs rest ih =>
    intro c
    simp only [List.foldl_cons]
    rw [ih]
    rfl

/-- C7: for a decorator `c` with wrapped sink `w` and skip depth `d`, `With`
returns a newly allocated decorator, distinct from `c`, whose wrapped sink is
the wrapped sink's `With` and whose skip depth is `d`; `c` and every other
decorator allocated before are left as they were. Every decorator derived from
`NewSourceCore w d` by a sequence of `With` calls has skip depth `d`, and the
first decorator still holds `w` and `d` afterwards. -/
theorem sourceCore_With_preserves_skip {κ ω : Type} (ops : CoreOps κ ω)
    (h : Store κ) (c : Nat) (w : κ) (d : Int) (fs : List Field)
    (hc : h.read c = some { Core := w, callerSkip := d }) :
    sourceCore.With ops { Core := w, callerSkip := d } fs
        = { Core := ops.With w fs, callerSkip := d }
      ∧ (∃ c1 h1, sourceCore.WithRef ops h c fs = some (c1, h1)
          ∧ h1.read c1 = some { Core := ops.With w fs, callerSkip := d }
          ∧ c1 ≠ c
          ∧ h1.read c = some { Core := w, callerSkip := d }
          ∧ ∀ p v, h.read p = some v → h1.read p = some v)
      ∧ (∀ fss : List (List Field),
          (fss.foldl (sourceCore.With ops) (NewSourceCore w d)).callerSkip = d)
      ∧ (∀ (h0 : Store κ) (fss : List (List Field)),
          ∃ c2 h2 v2,
            deriveRef ops (NewSourceCoreRef h0 w d).2 (NewSourceCoreRef h0 w d).1 fss
              = some (c2, h2)
            ∧ h2.read c2 = some v2 ∧ v2.callerSkip = d
            ∧ h2.read (NewSourceCoreRef h0 w d).1 = some (NewSourceCore w d)) := by
  refine ⟨rfl, ?_, ?_, ?_⟩
  · refine ⟨(h.alloc (sourceCore.With ops { Core := w, callerSkip := d } fs)).1,
      (h.alloc (sourceCore.With ops { Core := w, callerSkip := d } fs)).2, ?_,
      Store.read_alloc_new h _, Store.alloc_fresh h _ _ c hc,
      Store.read_alloc_of_read h _ _ c hc,
      fun p v hp => Store.read_alloc_of_read h _ v p hp⟩
    simp only [sourceCore.WithRef, hc]
  · intro fss
    rw [foldl_With_callerSkip]
    rfl
  · intro h0 fss
    have hnew : (NewSourceCoreRef h0 w d).2.read (NewSourceCoreRef h0 w d).1
        = some (NewSourceCore w d) := Store.read_alloc_new h0 _
    obtain ⟨c2, h2, hrun, ⟨v2, hread, hskip⟩, hkeep⟩ :=
      deriveRef_keeps_skip ops d fss (NewSourceCoreRef h0 w d).2
        (NewSourceCoreRef h0 w d).1 ⟨NewSourceCore w d, hnew, rfl⟩
    exact ⟨c2, h2, v2, hrun, hread, hskip, hkeep _ _ hnew⟩

/-- Witness of C7: `With` on the only decorator of a store, of skip depth 2 over
an observing sink with no bound fields. -/
theorem sourceCore_With_preserves_skip_witness :
    ∃ c1 h1,
      sourceCore.WithRef observerOps (NewSourceCoreRef { cells := [] } [] 2).2 0
          [sampleField] = some (c1, h1)
      ∧ h1.read c1 = some { Core := observerOps.With [] [sampleField], callerSkip := 2 }
      ∧ c1 ≠ 0
      ∧ h1.read 0 = some { Core := [], callerSkip := 2 }
      ∧ ∀ p v, (NewSourceCoreRef { cells := [] } [] 2).2.read p = some v →
          h1.read p = some v :=
  (sourceCore_With_preserves_skip observerOps
    (NewSourceCoreRef { cells := [] } [] 2).2 0 [] 2 [sampleField] rfl).2.1

/-! ## Theorems: `trace.go` -/

/-- The table lookup of `hex.EncodeToString` yields, for every byte, the
lowercase digit of its high half followed by that of its low half. -/
theorem hextable_lookup_eq_lowerHexDigit :
    ∀ v : Byte,
      [hextable.data.getD (v.val >>> 4) '0', hextable.data.getD (v.val &&& 15) '0']
        = [lowerHexDigit (v.val / 16), lowerHexDigit (v.val % 16)] := by
  set_option maxRecDepth 100000 in decide

/-- The characters of `hex.EncodeToString` are the lowercase hexadecimal
encoding of the bytes. -/
theorem hexEncodeToString_data (src : List Byte) :
    (hexEncodeToString src).data = lowerHexOfBytes src := by
  induction src with
  | nil => rfl
  | cons v rest ih =>
    simp only [hexEncodeToString, lowerHexOfBytes, List.flatMap_cons] at ih ⊢
    rw [hextable_lookup_eq_lowerHexDigit v, ih]

/-- The encoding has two characters per byte. -/
theorem lowerHexOfBytes_length (bs : List Byte) :
    (lowerHexOfBytes bs).length = 2 * bs.length := by
  induction bs with
  | nil => rfl
  | cons v rest ih =>
    simp only [lowerHexOfBytes, List.flatMap_cons, List.length_append,
      List.length_cons, List.length_nil] at ih ⊢
    omega

/-- A list of sixteen or eight zero bytes is the corresponding replicate. -/
theorem bytes_eq_replicate_of_all_zero (bs : List Byte) (n : Nat)
    (hlen : bs.length = n) (hzero : ∀ b ∈ bs, b = 0) : bs = List.replicate n 0 := by
  subst hlen
  exact List.eq_replicate_iff.mpr ⟨rfl, hzero⟩

/-- C4: for a context whose span context has a non-zero trace identifier and a
non-zero span identifier, `WithContext` returns the logger derived from the
input by binding `traceid`, mapped to the 32-character lowercase hexadecimal
encoding of the sixteen trace-identifier bytes (two digits per byte, bytes in
order), and then `sampled`, mapped to the sampled flag. For the bytes
`01 02 ... 0f 10` with the sampled flag set the pairs are
`traceid = 0102030405060708090a0b0c0d0e0f10` and `sampled = true`. -/
theorem WithContext_binds_trace_fields {L : Type} (lops : LoggerOps L)
    (ctx : Context) (log : L) (sc : SpanContext) (hctx : ctx.span = some sc)
    (htrace : sc.traceID.bytes ≠ List.replicate 16 0)
    (hspan : sc.spanID.bytes ≠ List.replicate 8 0) :
    WithContext lops ctx log
        = lops.WithValues log
            [Value.str "traceid", Value.str sc.traceID.String,
             Value.str "sampled", Value.bool sc.IsSampled]
      ∧ sc.traceID.String.data = lowerHexOfBytes sc.traceID.bytes
      ∧ sc.traceID.String.length = 32
      ∧ sampleTraceID.String = "0102030405060708090a0b0c0d0e0f10"
      ∧ WithContext listLoggerOps { span := some sampleSpanContext } []
          = [(Value.str "traceid", Value.str "0102030405060708090a0b0c0d0e0f10"),
             (Value.str "sampled", Value.bool true)] := by
  have ht : (sc.traceID.bytes == nilTraceID.bytes) = false :=
    beq_eq_false_iff_ne.mpr htrace
  have hs : (sc.spanID.bytes == nilSpanID.bytes) = false :=
    beq_eq_false_iff_ne.mpr hspan
  have hvalid : sc.IsValid = true := by
    simp only [SpanContext.IsValid, TraceID.IsValid, SpanID.IsValid, ht, hs,
      Bool.not_false, Bool.and_self]
  have hdata : sc.traceID.String.data = lowerHexOfBytes sc.traceID.bytes :=
    hexEncodeToString_data sc.traceID.bytes
  refine ⟨?_, hdata, ?_, by decide, by decide⟩
  · simp [WithContext, SpanContextFromContext, hctx, hvalid]
  · show sc.traceID.String.data.length = 32
    rw [hdata, lowerHexOfBytes_length, sc.traceID.size]

/-- Witness of C4: the sampled span context of the trace-field test. -/
theorem WithContext_binds_trace_fields_witness :
    WithContext listLoggerOps { span := some sampleSpanContext } []
      = listLoggerOps.WithValues []
          [Value.str "traceid", Value.str sampleSpanContext.traceID.String,
           Value.str "sampled", Value.bool sampleSpanContext.IsSampled] :=
  (WithContext_binds_trace_fields listLoggerOps { span := some sampleSpanContext } []
    sampleSpanContext rfl (by decide) (by decide)).1

/-- C5: for a context that carries no span context, or one that is invalid, in
particular one whose trace identifier is all zero, `WithContext` returns the
input logger itself. -/
theorem WithContext_invalid_is_identity {L : Type} (lops : LoggerOps L)
    (ctx : Context) (log : L)
    (h : ctx.span = none
      ∨ ∃ sc, ctx.span = some sc
          ∧ (sc.IsValid = false ∨ ∀ b ∈ sc.traceID.bytes, b = 0)) :
    WithContext lops ctx log = log := by
  have hinv : (SpanContextFromContext ctx).IsValid = false := by
    rcases h with hnone | ⟨sc, hsome, hbad⟩
    · simp only [SpanContextFromContext, hnone]
      decide
    · simp only [SpanContextFromContext, hsome]
      rcases hbad with hbad | hzero
      · exact hbad
      · have hb := bytes_eq_replicate_of_all_zero sc.traceID.bytes 16
          sc.traceID.size hzero
        have ht : (sc.traceID.bytes == nilTraceID.bytes) = true :=
          beq_iff_eq.mpr hb
        simp only [SpanContext.IsValid, TraceID.IsValid, ht, Bool.not_true,
          Bool.false_and]
  simp [WithContext, hinv]

/-- Witness of C5: a span context with an all-zero trace identifier and a
non-zero span identifier. -/
theorem WithContext_invalid_is_identity_witness :
    WithContext listLoggerOps
      { span := some { sampleSpanContext with traceID := nilTraceID } } [] = [] :=
  WithContext_invalid_is_identity listLoggerOps
    { span := some { sampleSpanContext with traceID := nilTraceID } } []
    (Or.inr ⟨{ sampleSpanContext with traceID := nilTraceID }, rfl,
      Or.inr (fun _ hb => List.eq_of_mem_replicate hb)⟩)

/-! ## Theorems: the JSON line of an entry -/

/-- Reading a text in two parts. -/
theorem jsonRun_append (front back : List Char) :
    ∀ s : JsonState,
      jsonRun s (front ++ back) = (jsonRun s front).bind fun mid => jsonRun mid back := by
  induction front with
  | nil => intro s; rfl
  | cons c rest ih =>
    intro s
    simp only [List.cons_append, jsonRun]
    cases jsonStep s c with
    | none => rfl
    | some next => exact ih next

/-- Reading the first character of a text. -/
theorem jsonRun_cons (s : JsonState) (c : Char) (rest : List Char) :
    jsonRun s (c :: rest) = (jsonStep s c).bind fun next => jsonRun next rest := by
  simp only [jsonRun]
  cases jsonStep s c <;> rfl

/-- The literals `true` and `false` are read as values. -/
theorem jsonRun_literals (stack : List JsonFrame) (tail : List Char) :
    jsonRun (JsonMode.value, stack) ('t' :: 'r' :: 'u' :: 'e' :: tail)
        = jsonRun (JsonMode.literal [], stack) tail
      ∧ jsonRun (JsonMode.value, stack) ('f' :: 'a' :: 'l' :: 's' :: 'e' :: tail)
        = jsonRun (JsonMode.literal [], stack) tail :=
  ⟨rfl, rfl⟩

/-- The digits of the escape table are hexadecimal digits. -/
theorem hextable_lookup_isJsonHex :
    ∀ n, n < 16 → isJsonHex (hextable.data.getD n '0') = true := by
  decide

/-- A `\u` escape with four hexadecimal digits is read as one character of
the string. -/
theorem jsonRun_unicodeEscape (a b c d : Char) (isKey : Bool)
    (stack : List JsonFrame) (rest : List Char) (ha : isJsonHex a = true)
    (hb : isJsonHex b = true) (hc : isJsonHex c = true) (hd : isJsonHex d = true) :
    jsonRun (JsonMode.string isKey, stack) ('\\' :: 'u' :: a :: b :: c :: d :: rest)
      = jsonRun (JsonMode.string isKey, stack) rest := by
  simp [jsonRun, jsonStep, ha, hb, hc, hd]

/-- Inside a string, the escaped form of a character is read as one character
of the string. -/
theorem jsonRun_escapeChar (c : Char) (isKey : Bool) (stack : List JsonFrame)
    (rest : List Char) :
    jsonRun (JsonMode.string isKey, stack) (escapeChar c ++ rest)
      = jsonRun (JsonMode.string isKey, stack) rest := by
  unfold escapeChar
  split_ifs with h1 h2 h3 h4 h5
  · simp [jsonRun, jsonStep, h1.2.1, h1.2.2, Nat.not_lt.mpr h1.1]
  · rcases h2 with h2 | h2 <;> subst h2 <;> simp [jsonRun, jsonStep]
  · subst h3; simp [jsonRun, jsonStep]
  · subst h4; simp [jsonRun, jsonStep]
  · subst h5; simp [jsonRun, jsonStep]
  · have hlt : c.toNat < 32 := by
      by_contra hge
      exact h1 ⟨Nat.le_of_not_lt hge, fun h => h2 (Or.inl h), fun h => h2 (Or.inr h)⟩
    have hhi : c.toNat >>> 4 < 16 := by
      rw [Nat.shiftRight_eq_div_pow]
      omega
    have hlo : c.toNat &&& 15 < 16 := Nat.lt_succ_of_le Nat.and_le_right
    have hzero : isJsonHex '0' = true := by decide
    exact jsonRun_unicodeEscape _ _ _ _ isKey stack rest hzero hzero
      (hextable_lookup_isJsonHex _ hhi) (hextable_lookup_isJsonHex _ hlo)

/-- Inside a string, the escaped characters followed by the closing quote end
the string. -/
theorem jsonRun_escapeChars (cs : List Char) (isKey : Bool)
    (stack : List JsonFrame) (rest : List Char) :
    jsonRun (JsonMode.string isKey, stack) (escapeChars cs ++ '"' :: rest)
      = jsonRun (if isKey then JsonMode.colon else JsonMode.afterValue, stack) rest := by
  induction cs with
  | nil => simp [escapeChars, jsonRun, jsonStep]
  | cons c tail ih =>
    simp only [escapeChars, List.append_assoc]
    rw [jsonRun_escapeChar, ih]

/-- The digit characters are decimal digits, and only that of zero is `0`. -/
theorem digitChar_facts :
    ∀ n, n < 10 →
      isJsonDigit (digitChar n) = true ∧ isJsonSpace (digitChar n) = false
        ∧ digitChar n ≠ '"' ∧ digitChar n ≠ '{' ∧ digitChar n ≠ '[' ∧ digitChar n ≠ '-'
        ∧ (digitChar n = '0' ↔ n = 0) := by
  decide

/-- A digit other than zero starts the digits of a number, both where a value
starts and after a minus sign. -/
theorem jsonStep_leading_digit (n : Nat) (hn : n < 10) (hpos : 0 < n)
    (mode : JsonMode) (hmode : mode = JsonMode.value ∨ mode = JsonMode.minus)
    (stack : List JsonFrame) :
    jsonStep (mode, stack) (digitChar n) = some (JsonMode.digits, stack) := by
  obtain ⟨hd, hs, h1, h2, h3, h4, h0⟩ := digitChar_facts n hn
  have hne : digitChar n ≠ '0' := fun h => Nat.ne_of_gt hpos (h0.mp h)
  rcases hmode with rfl | rfl
  · simp [jsonStep, valueStep, hd, hs, h1, h2, h3, h4, hne]
  · simp [jsonStep, hd, hne]

/-- A digit continues the digits of a number. -/
theorem jsonStep_next_digit (n : Nat) (hn : n < 10) (stack : List JsonFrame) :
    jsonStep (JsonMode.digits, stack) (digitChar n) = some (JsonMode.digits, stack) := by
  simp [jsonStep, (digitChar_facts n hn).1]

/-- The digits of a positive number are read as the digits of a JSON number. -/
theorem jsonRun_digitsLoop (mode : JsonMode)
    (hmode : mode = JsonMode.value ∨ mode = JsonMode.minus) (stack : List JsonFrame)
    (tail : List Char) :
    ∀ (fuel n : Nat) (acc : List Char), n < fuel → 0 < n →
      jsonRun (mode, stack) (digitsLoop fuel n acc ++ tail)
        = jsonRun (JsonMode.digits, stack) (acc ++ tail) := by
  intro fuel
  induction fuel with
  | zero => intro n acc hlt; omega
  | succ fuel ih =>
    intro n acc hlt hpos
    unfold digitsLoop
    split_ifs with hsmall
    · rw [List.cons_append, jsonRun_cons,
        jsonStep_leading_digit n hsmall hpos mode hmode stack]
      rfl
    · rw [ih (n / 10) _ (by omega) (by omega), List.cons_append, jsonRun_cons,
        jsonStep_next_digit (n % 10) (Nat.mod_lt n (by decide)) stack]
      rfl

/-- A comma or a closing brace after a number ends the number. -/
theorem jsonStep_number_end (c : Char) (hc : c = ',' ∨ c = '}')
    (stack : List JsonFrame) :
    jsonStep (JsonMode.digits, stack) c = afterValueStep stack c
      ∧ jsonStep (JsonMode.zero, stack) c = afterValueStep stack c
      ∧ jsonStep (JsonMode.afterValue, stack) c = afterValueStep stack c
      ∧ jsonStep (JsonMode.literal [], stack) c = afterValueStep stack c := by
  rcases hc with rfl | rfl <;> refine ⟨?_, ?_, rfl, rfl⟩ <;> simp [jsonStep, isJsonDigit]

/-- The decimal text of a natural number followed by a comma or a closing
brace is read as a number. -/
theorem jsonRun_natText (mode : JsonMode)
    (hmode : mode = JsonMode.value ∨ mode = JsonMode.minus) (stack : List JsonFrame)
    (n : Nat) (c : Char) (hc : c = ',' ∨ c = '}') (rest : List Char) :
    jsonRun (mode, stack) (natText n ++ c :: rest)
      = (afterValueStep stack c).bind fun next => jsonRun next rest := by
  obtain ⟨hdigits, hzero, -, -⟩ := jsonStep_number_end c hc stack
  rcases Nat.eq_zero_or_pos n with rfl | hpos
  · have hstart : jsonStep (mode, stack) '0' = some (JsonMode.zero, stack) := by
      rcases hmode with rfl | rfl <;> simp [jsonStep, valueStep, isJsonSpace]
    show jsonRun (mode, stack) ('0' :: c :: rest) = _
    rw [jsonRun_cons, hstart, Option.some_bind, jsonRun_cons, hzero]
  · unfold natText
    rw [jsonRun_digitsLoop mode hmode stack _ (n + 1) n [] (Nat.lt_succ_self n) hpos,
      List.nil_append, jsonRun_cons, hdigits]

/-- A scalar followed by a comma or a closing brace is read as a value. -/
theorem jsonRun_scalar (v : JsonScalar) (stack : List JsonFrame) (c : Char)
    (hc : c = ',' ∨ c = '}') (rest : List Char) :
    jsonRun (JsonMode.value, stack) (v.render ++ c :: rest)
      = (afterValueStep stack c).bind fun next => jsonRun next rest := by
  obtain ⟨-, -, hafter, hliteral⟩ := jsonStep_number_end c hc stack
  cases v with
  | str s =>
    have hopen : jsonStep (JsonMode.value, stack) '"'
        = some (JsonMode.string false, stack) := by
      simp [jsonStep, valueStep, isJsonSpace]
    simp only [JsonScalar.render, quoted, List.cons_append, List.append_assoc,
      List.nil_append]
    rw [jsonRun_cons, hopen, Option.some_bind, jsonRun_escapeChars]
    simp only [Bool.false_eq_true, if_false]
    rw [jsonRun_cons, hafter]
  | int i =>
    cases i with
    | ofNat n => exact jsonRun_natText _ (Or.inl rfl) stack n c hc rest
    | negSucc n =>
      have hminus : jsonStep (JsonMode.value, stack) '-'
          = some (JsonMode.minus, stack) := by
        simp [jsonStep, valueStep, isJsonSpace]
      simp only [JsonScalar.render, intText, List.cons_append]
      rw [jsonRun_cons, hminus, Option.some_bind]
      exact jsonRun_natText _ (Or.inr rfl) stack (n + 1) c hc rest
  | bool b =>
    cases b
    · simp only [JsonScalar.render, List.cons_append, List.nil_append]
      rw [(jsonRun_literals stack _).2, jsonRun_cons, hliteral]
    · simp only [JsonScalar.render, List.cons_append, List.nil_append]
      rw [(jsonRun_literals stack _).1, jsonRun_cons, hliteral]

/-- After a value in an object, a comma asks for the next key and a closing
brace ends the object. -/
theorem afterValueStep_object (outer : List JsonFrame) :
    afterValueStep (JsonFrame.object :: outer) ','
        = some (JsonMode.key, JsonFrame.object :: outer)
      ∧ afterValueStep (JsonFrame.object :: outer) '}'
        = some (JsonMode.afterValue, outer) :=
  ⟨rfl, rfl⟩

/-- A member `key:value` followed by a comma or a closing brace is read as a
member, whenever its value followed by that character is read as a value. -/
theorem jsonRun_member {α : Type} (renderValue : α → List Char) (k : String) (v : α)
    (stack : List JsonFrame) (c : Char) (rest : List Char) (mode : JsonMode)
    (hmode : mode = JsonMode.key ∨ mode = JsonMode.objectStart)
    (hvalue : jsonRun (JsonMode.value, stack) (renderValue v ++ c :: rest)
      = (afterValueStep stack c).bind fun next => jsonRun next rest) :
    jsonRun (mode, stack) (quoted k ++ ':' :: (renderValue v ++ c :: rest))
      = (afterValueStep stack c).bind fun next => jsonRun next rest := by
  have hopen : jsonStep (mode, stack) '"' = some (JsonMode.string true, stack) := by
    rcases hmode with rfl | rfl <;> rfl
  have hcolon : jsonStep (JsonMode.colon, stack) ':' = some (JsonMode.value, stack) :=
    rfl
  simp only [quoted, List.cons_append, List.append_assoc, List.nil_append]
  rw [jsonRun_cons, hopen, Option.some_bind, jsonRun_escapeChars]
  simp only [if_true]
  rw [jsonRun_cons, hcolon, Option.some_bind, hvalue]

/-- The members of an object followed by the closing brace are read up to the
end of the object, whenever each value is read as a value. -/
theorem jsonRun_members {α : Type} (renderValue : α → List Char) (good : α → Prop)
    (hvalue : ∀ v, good v → ∀ (stack : List JsonFrame) (c : Char) (rest : List Char),
      c = ',' ∨ c = '}' →
      jsonRun (JsonMode.value, stack) (renderValue v ++ c :: rest)
        = (afterValueStep stack c).bind fun next => jsonRun next rest)
    (outer : List JsonFrame) (rest : List Char) :
    ∀ (ms : List (String × α)), (∀ m ∈ ms, good m.2) → ms ≠ [] →
      ∀ mode, mode = JsonMode.key ∨ mode = JsonMode.objectStart →
        jsonRun (mode, JsonFrame.object :: outer)
            (renderMembers renderValue ms ++ '}' :: rest)
          = jsonRun (JsonMode.afterValue, outer) rest := by
  intro ms
  induction ms with
  | nil => intro _ hne; exact absurd rfl hne
  | cons m tail ih =>
    intro hgood _ mode hmode
    have hm : good m.2 := hgood m (List.mem_cons_self m tail)
    cases tail with
    | nil =>
      simp only [renderMembers, List.cons_append, List.append_assoc]
      rw [jsonRun_member renderValue m.1 m.2 _ '}' rest mode hmode
        (hvalue m.2 hm _ '}' rest (Or.inr rfl)), (afterValueStep_object outer).2]
      rfl
    | cons next more =>
      simp only [renderMembers, List.cons_append, List.append_assoc]
      rw [jsonRun_member renderValue m.1 m.2 _ ',' _ mode hmode
        (hvalue m.2 hm _ ',' _ (Or.inl rfl)), (afterValueStep_object outer).1]
      exact ih (fun x hx => hgood x (List.mem_cons_of_mem m hx))
        (List.cons_ne_nil next more) JsonMode.key (Or.inl rfl)

/-- An object whose values are read as values is read as a value. -/
theorem jsonRun_object {α : Type} (renderValue : α → List Char) (good : α → Prop)
    (hvalue : ∀ v, good v → ∀ (stack : List JsonFrame) (c : Char) (rest : List Char),
      c = ',' ∨ c = '}' →
      jsonRun (JsonMode.value, stack) (renderValue v ++ c :: rest)
        = (afterValueStep stack c).bind fun next => jsonRun next rest)
    (ms : List (String × α)) (hgood : ∀ m ∈ ms, good m.2) (stack : List JsonFrame)
    (rest : List Char) :
    jsonRun (JsonMode.value, stack) (renderObject renderValue ms ++ rest)
      = jsonRun (JsonMode.afterValue, stack) rest := by
  have hopen : jsonStep (JsonMode.value, stack) '{'
      = some (JsonMode.objectStart, JsonFrame.object :: stack) := rfl
  simp only [renderObject, List.cons_append, List.append_assoc, List.nil_append]
  rw [jsonRun_cons, hopen, Option.some_bind]
  cases ms with
  | nil => rfl
  | cons m tail =>
    exact jsonRun_members renderValue good hvalue stack rest (m :: tail) hgood
      (List.cons_ne_nil m tail) JsonMode.objectStart (Or.inr rfl)

/-- A modelled member value followed by a comma or a closing brace is read as
a value. -/
theorem jsonRun_value (v : JsonValue) (hv : v.modelled = true)
    (stack : List JsonFrame) (c : Char) (rest : List Char) (hc : c = ',' ∨ c = '}') :
    jsonRun (JsonMode.value, stack) (v.render ++ c :: rest)
      = (afterValueStep stack c).bind fun next => jsonRun next rest := by
  cases v with
  | scalar s => exact jsonRun_scalar s stack c hc rest
  | object members =>
    show jsonRun (JsonMode.value, stack)
      (renderObject JsonScalar.render members ++ c :: rest) = _
    rw [jsonRun_object JsonScalar.render (fun _ => True)
      (fun s _ st d tl hd => jsonRun_scalar s st d hd tl) members (fun _ _ => trivial),
      jsonRun_cons]
    exact congrArg (fun o => Option.bind o fun next => jsonRun next rest)
      (jsonStep_number_end c hc stack).2.2.1
  | external text => cases hv

/-- The text of an object whose member values are all modelled is one JSON
object, also when a newline follows it. -/
theorem isJSONObject_renderObject (ms : List (String × JsonValue))
    (hgood : ∀ m ∈ ms, m.2.modelled = true) :
    isJSONObject (String.mk (renderObject JsonValue.render ms)) = true
      ∧ isJSONObject (String.mk (renderObject JsonValue.render ms) ++ "\n") = true := by
  have hrun : ∀ rest, jsonRun (JsonMode.value, [])
      (renderObject JsonValue.render ms ++ rest)
        = jsonRun (JsonMode.afterValue, []) rest :=
    fun rest => jsonRun_object JsonValue.render (fun v => v.modelled = true)
      (fun v hv st d tl hd => jsonRun_value v hv st d tl hd) ms hgood [] rest
  constructor
  · have h := hrun []
    rw [List.append_nil] at h
    simp only [isJSONObject, isJSONText, h]
    rfl
  · have h := hrun ['\n']
    have hdata : (String.mk (renderObject JsonValue.render ms) ++ "\n").data
        = renderObject JsonValue.render ms ++ ['\n'] := by
      rw [String.data_append]
    simp only [isJSONObject, isJSONText, hdata, h]
    rfl

/-- A member of a list that holds one element or none is that element. -/
theorem eq_of_mem_ite_singleton {α : Type} (p : Prop) [Decidable p] (x m : α)
    (h : m ∈ (if p then [x] else [])) : m = x := by
  split_ifs at h
  · exact List.mem_singleton.mp h
  · cases h

/-- The value of a modelled field is a modelled value. -/
theorem Field.toValue_modelled (r : Rendering) (f : Field)
    (hf : f.modelled = true) : (f.toValue r).modelled = true := by
  unfold Field.modelled at hf
  unfold Field.toValue
  split at hf <;> first | rfl | cases hf

/-- Under a time encoder that appends a layout, the members written for an
entry with modelled fields are all modelled values. -/
theorem jsonMembers_modelled (r : Rendering) (cfg : EncoderConfig) (ent : Entry)
    (fields : List Field) (hlayout : cfg.EncodeTime.isLayout = true)
    (hfields : ∀ f ∈ fields, f.modelled = true) :
    ∀ m ∈ jsonMembers r cfg ent fields, m.2.modelled = true := by
  intro m hm
  simp only [jsonMembers, List.mem_append, List.mem_map] at hm
  rcases hm with ((((((h | h) | h) | h) | h) | h) | h) | h
  · rw [eq_of_mem_ite_singleton _ _ _ h]; rfl
  · rw [eq_of_mem_ite_singleton _ _ _ h]
    simp only [timeValue, hlayout, if_true]
    rfl
  · rw [eq_of_mem_ite_singleton _ _ _ h]; rfl
  · rw [eq_of_mem_ite_singleton _ _ _ h]; rfl
  · rw [eq_of_mem_ite_singleton _ _ _ h]; rfl
  · rw [eq_of_mem_ite_singleton _ _ _ h]; rfl
  · obtain ⟨f, hmem, rfl⟩ := h
    exact Field.toValue_modelled r f (hfields f hmem)
  · rw [eq_of_mem_ite_singleton _ _ _ h]; rfl

/-- The field that `sourceCore.Write` appends is a modelled field. -/
theorem sourceField_modelled (fn file : String) (line : Int) :
    Field.modelled
      { Key := "source", Typ := FieldType.ObjectMarshalerType,
        Interface := FieldPayload.source { Function := fn, File := file, Line := line } }
      = true := rfl

/-- Through a decorator around the backend's sink with the Kibana JSON encoder,
a write of modelled fields adds one line to the structured log output: a JSON
object followed by the line ending. -/
theorem kibana_line_is_json (r : Rendering) (enab : Int → Bool)
    (production : EncoderConfig) (rt : Runtime) (c : sourceCore (List Field))
    (ent : Entry) (fs : List Field) (world : Streams)
    (hfields : ∀ f ∈ c.Core ++ fs, f.modelled = true) :
    ∃ body : String,
      (sourceCore.Write (ioCoreOps r enab (NewKibanaJSONEncoder production)) rt c ent fs
          world).2.structuredLog
        = world.structuredLog ++ [body ++ lineEndingOf production]
      ∧ isJSONObject body = true
      ∧ (lineEndingOf production = "\n" →
          isJSONObject (body ++ lineEndingOf production) = true) := by
  have hjson : ∀ fields : List Field, (∀ f ∈ fields, f.modelled = true) →
      isJSONObject (jsonObjectText r (NewKibanaJSONEncoder production).config ent fields)
          = true
        ∧ isJSONObject
            (jsonObjectText r (NewKibanaJSONEncoder production).config ent fields ++ "\n")
          = true :=
    fun fields hall => isJSONObject_renderObject _
      (jsonMembers_modelled r _ ent fields rfl hall)
  cases hres : rt.Caller c.callerSkip with
  | none =>
    refine ⟨jsonObjectText r (NewKibanaJSONEncoder production).config ent (c.Core ++ fs),
      ?_, (hjson _ hfields).1, ?_⟩
    · simp only [sourceCore.Write, hres]
      rfl
    · intro hend
      rw [hend]
      exact (hjson _ hfields).2
  | some frame =>
    obtain ⟨pc, file, line⟩ := frame
    have hall : ∀ f, f ∈ c.Core ++ (fs ++ [Field.mk "source"
        FieldType.ObjectMarshalerType 0 ""
        (FieldPayload.source (sourceInfo.mk (rt.FuncName pc) file line))]) →
        f.modelled = true := by
      intro f hf
      rw [← List.append_assoc, List.mem_append, List.mem_singleton] at hf
      rcases hf with hf | rfl
      · exact hfields f hf
      · rfl
    refine ⟨jsonObjectText r (NewKibanaJSONEncoder production).config ent
        (c.Core ++ (fs ++ [Field.mk "source" FieldType.ObjectMarshalerType 0 ""
          (FieldPayload.source (sourceInfo.mk (rt.FuncName pc) file line))])),
      ?_, (hjson _ hall).1, ?_⟩
    · simp only [sourceCore.Write, hres]
      rfl
    · intro hend
      rw [hend]
      exact (hjson _ hall).2

/-! ## Theorems: encoder selection and `encoder.go` -/

/-- A selector value other than `console` and `json` implies no encoding. -/
theorem impliedEncoding_eq_none (value : String) (hconsole : value ≠ "console")
    (hjson : value ≠ "json") : impliedEncoding value = none := by
  simp only [impliedEncoding, hconsole, hjson, if_false]

/-- The conflict warning contains the word `overrides`. -/
theorem conflictWarning_contains_overrides (logFormat zapEncoder : String) :
    List.IsInfix "overrides".data (conflictWarning logFormat zapEncoder).data := by
  refine ⟨("log format " ++ logFormat).data ++ [' '],
    " legacy encoder ".data ++ zapEncoder.data, ?_⟩
  simp only [conflictWarning, String.data_append, List.append_assoc]
  rfl

/-- C8: for an explicitly requested format value other than `console` and
`json`, whatever the legacy encoder input and whether it is explicit,
`configureEncoder` returns the `InvalidFormat` error and leaves the options
object as it was; in particular the encoder construction function keeps its
value. -/
theorem configureEncoder_rejects_unsupported_format
    (unspecified : String → Bool → String → Bool → Options → Streams → Outcome)
    (logFormat zapEncoder : String) (zapEncoderSet : Bool) (opts : Options)
    (streams : Streams) (hconsole : logFormat ≠ "console")
    (hjson : logFormat ≠ "json") :
    (configureEncoder unspecified logFormat true zapEncoder zapEncoderSet opts
        streams).err = some (ConfigError.InvalidFormat logFormat)
      ∧ (configureEncoder unspecified logFormat true zapEncoder zapEncoderSet opts
          streams).opts = opts
      ∧ (configureEncoder unspecified logFormat true zapEncoder zapEncoderSet opts
          streams).opts.NewEncoder = opts.NewEncoder := by
  have hout : configureEncoder unspecified logFormat true zapEncoder zapEncoderSet
      opts streams
      = { err := some (ConfigError.InvalidFormat logFormat), opts := opts,
          streams := streams } := by
    simp only [configureEncoder, impliedEncoding_eq_none logFormat hconsole hjson,
      if_true]
  rw [hout]
  exact ⟨rfl, rfl, rfl⟩

/-- Witness of C8: the format `xml` of the invalid-format test. -/
theorem configureEncoder_rejects_unsupported_format_witness :
    (configureEncoder rejectUnspecified "xml" true "console" false sampleOptions
        emptyStreams).err = some (ConfigError.InvalidFormat "xml")
      ∧ (configureEncoder rejectUnspecified "xml" true "console" false sampleOptions
          emptyStreams).opts = sampleOptions
      ∧ (configureEncoder rejectUnspecified "xml" true "console" false sampleOptions
          emptyStreams).opts.NewEncoder = sampleOptions.NewEncoder :=
  configureEncoder_rejects_unsupported_format rejectUnspecified "xml" "console"
    false sampleOptions emptyStreams (by decide) (by decide)

/-- C9: when the format input and the legacy encoder input are both explicit
and imply different encodings, `configureEncoder` succeeds, the effective
encoding is the one the format input names, exactly one line, containing the
word `overrides`, is added to the diagnostic stream and nothing to the
structured log output. For `json` against `console` the effective encoding is
`json`, the encoder of the options is the JSON encoder with the Kibana
configuration, and the output parses as JSON: every write of modelled fields
through a decorator around the backend's sink adds one line to the structured
log output that is a JSON object followed by the line ending. -/
theorem configureEncoder_format_overrides_legacy
    (unspecified : String → Bool → String → Bool → Options → Streams → Outcome)
    (logFormat zapEncoder : String) (opts : Options) (streams : Streams)
    (f g : Format) (hf : impliedEncoding logFormat = some f)
    (hg : impliedEncoding zapEncoder = some g) (hne : f ≠ g) :
    (configureEncoder unspecified logFormat true zapEncoder true opts streams).err
        = none
      ∧ (configureEncoder unspecified logFormat true zapEncoder true opts
          streams).opts.effectiveEncoding = some f
      ∧ (∃ warning,
          (configureEncoder unspecified logFormat true zapEncoder true opts
            streams).streams.diagnostic = streams.diagnostic ++ [warning]
          ∧ List.IsInfix "overrides".data warning.data)
      ∧ (configureEncoder unspecified logFormat true zapEncoder true opts
          streams).streams.structuredLog = streams.structuredLog
      ∧ (configureEncoder unspecified "json" true "console" true opts
          streams).opts.effectiveEncoding = some Format.json
      ∧ (∀ production consoleDefault,
          (configureEncoder unspecified "json" true "console" true opts
            streams).opts.NewEncoder.map
              (NewEncoderFunc.build production consoleDefault)
            = some (NewKibanaJSONEncoder production))
      ∧ (∀ production consoleDefault,
          (configureEncoder unspecified "json" true "console" true opts
            streams).opts.encoder production consoleDefault
            = Encoder.NewJSONEncoder (NewKibanaJSONEncoder production).config)
      ∧ ∀ (r : Rendering) (enab : Int → Bool) (production consoleDefault : EncoderConfig)
          (rt : Runtime) (c : sourceCore (List Field)) (ent : Entry)
          (fs : List Field) (world : Streams),
          (∀ fld ∈ c.Core ++ fs, fld.modelled = true) →
          ∃ body : String,
            (sourceCore.Write
                (ioCoreOps r enab
                  ((configureEncoder unspecified "json" true "console" true opts
                    streams).opts.encoder production consoleDefault))
                rt c ent fs world).2.structuredLog
              = world.structuredLog ++ [body ++ lineEndingOf production]
            ∧ isJSONObject body = true
            ∧ (lineEndingOf production = "\n" →
                isJSONObject (body ++ lineEndingOf production) = true) := by
  have hout : configureEncoder unspecified logFormat true zapEncoder true opts
      streams
      = selectEncoding f opts
          { streams with
            diagnostic :=
              streams.diagnostic ++ [conflictWarning logFormat zapEncoder] } := by
    simp only [configureEncoder, hf, hg, hne, if_true, if_false]
  rw [hout]
  refine ⟨rfl, ?_, ⟨_, rfl, conflictWarning_contains_overrides _ _⟩, rfl, rfl, ?_,
    ?_, ?_⟩
  · cases f <;> rfl
  · intro production consoleDefault
    rfl
  · intro production consoleDefault
    rfl
  · intro r enab production consoleDefault rt c ent fs world hfields
    exact kibana_line_is_json r enab production rt c ent fs world hfields

/-- Witness of C9: `json` explicit against `console` explicit, as in the
conflict test, followed by one write of the entry `hello` through a decorator
of skip depth 2. -/
theorem configureEncoder_format_overrides_legacy_witness :
    (configureEncoder rejectUnspecified "json" true "console" true sampleOptions
        emptyStreams).err = none
      ∧ (configureEncoder rejectUnspecified "json" true "console" true sampleOptions
          emptyStreams).streams.diagnostic
          = ["log format json overrides legacy encoder console"]
      ∧ (configureEncoder rejectUnspecified "json" true "console" true sampleOptions
          emptyStreams).opts.effectiveEncoding = some Format.json
      ∧ (sourceCore.Write
          (ioCoreOps sampleRendering (fun _ => true)
            ((configureEncoder rejectUnspecified "json" true "console" true
              sampleOptions emptyStreams).opts.encoder zapProductionEncoderConfig
              zapProductionEncoderConfig))
          (stackRuntime noInner sampleNames
            [frameWrite, frameBackend, frameSite, frameOuter])
          (NewSourceCore [] 2) sampleEntry [sampleField] emptyStreams).2.structuredLog
          = ["\x7b\"level\":\"INFO\",\"time\":\"2023-11-14T22:13:20.000000001Z\"," ++
             "\"msg\":\"hello\",\"gameserver\":\"gs-0\",\"source\":" ++
             "\x7b\"function\":\"main.TestKlogRedirectsToZap\"," ++
             "\"file\":\"main_test.go\",\"line\":176\x7d\x7d\n"]
      ∧ isJSONObject
          ("\x7b\"level\":\"INFO\",\"time\":\"2023-11-14T22:13:20.000000001Z\"," ++
           "\"msg\":\"hello\",\"gameserver\":\"gs-0\",\"source\":" ++
           "\x7b\"function\":\"main.TestKlogRedirectsToZap\"," ++
           "\"file\":\"main_test.go\",\"line\":176\x7d\x7d\n") = true
      ∧ isJSONObject (sampleRendering.consoleLine zapProductionEncoderConfig
          sampleEntry [sampleField]) = false :=
  ⟨(configureEncoder_format_overrides_legacy rejectUnspecified "json" "console"
      sampleOptions emptyStreams Format.json Format.console rfl rfl
      (by decide)).1,
    rfl,
    (configureEncoder_format_overrides_legacy rejectUnspecified "json" "console"
      sampleOptions emptyStreams Format.json Format.console rfl rfl
      (by decide)).2.1,
    by set_option maxRecDepth 100000 in decide,
    by set_option maxRecDepth 100000 in decide,
    by decide⟩

/-- C10: the configuration that `NewKibanaJSONEncoder` hands to the JSON encoder
has time key `time`, level key `level`, message key `msg`, stacktrace key
`stacktrace`, the RFC3339 time encoder with nanoseconds, the capital level
encoder and the short caller encoder, and keeps every other setting of the
production defaults; these seven settings are the same on every call. -/
theorem NewKibanaJSONEncoder_settings (production : EncoderConfig) :
    NewKibanaJSONEncoder production
        = Encoder.NewJSONEncoder
            { production with
              TimeKey := "time", LevelKey := "level", MessageKey := "msg",
              StacktraceKey := "stacktrace",
              EncodeTime := TimeEncoder.RFC3339NanoTimeEncoder,
              EncodeLevel := LevelEncoder.CapitalLevelEncoder,
              EncodeCaller := CallerEncoder.ShortCallerEncoder }
      ∧ (NewKibanaJSONEncoder production).config.TimeKey = "time"
      ∧ (NewKibanaJSONEncoder production).config.LevelKey = "level"
      ∧ (NewKibanaJSONEncoder production).config.MessageKey = "msg"
      ∧ (NewKibanaJSONEncoder production).config.StacktraceKey = "stacktrace"
      ∧ (NewKibanaJSONEncoder production).config.EncodeTime
          = TimeEncoder.RFC3339NanoTimeEncoder
      ∧ (NewKibanaJSONEncoder production).config.EncodeLevel
          = LevelEncoder.CapitalLevelEncoder
      ∧ (NewKibanaJSONEncoder production).config.EncodeCaller
          = CallerEncoder.ShortCallerEncoder
      ∧ NewKibanaJSONEncoder zapProductionEncoderConfig
          = Encoder.NewJSONEncoder
              { TimeKey := "time", LevelKey := "level", NameKey := "logger",
                CallerKey := "caller", FunctionKey := "", MessageKey := "msg",
                StacktraceKey := "stacktrace", SkipLineEnding := false,
                LineEnding := "\n",
                EncodeLevel := LevelEncoder.CapitalLevelEncoder,
                EncodeTime := TimeEncoder.RFC3339NanoTimeEncoder,
                EncodeDuration := DurationEncoder.SecondsDurationEncoder,
                EncodeCaller := CallerEncoder.ShortCallerEncoder,
                ConsoleSeparator := "" } := by
  refine ⟨rfl, rfl, rfl, rfl, rfl, rfl, rfl, rfl, rfl⟩

end Logging
